import Mathlib

/-!
# Verification of edx-platform instructor/search/xqueue glue code

Shallow embedding, in Lean 4, of the pure logic of several modules of the
`edx-platform` repository, together with theorems settling the claims of the
natural-language specification:

* `xmodule/capa/xqueue_interface.py` — the xqueue HTTP client
  (`send_to_queue`, `_http_post`, `parse_xreply`);
* `lms/djangoapps/instructor/views/api_v2.py` — report generation and
  report-download views (`GenerateReportView.post`,
  `ReportDownloadsView._detect_report_type_from_filename`,
  `ReportDownloadsView._extract_date_from_filename`);
* `lms/djangoapps/instructor/constants.py` — the `ReportType` enum;
* `openedx/core/djangoapps/content/search/documents.py` —
  `meili_id_from_opaque_key` and `_tags_for_content_object`;
* `openedx-wasm/untrusted_code/wasm_helper.py` — `json_safe`;
* `openedx/core/djangoapps/course_groups/rest_api/views.py` —
  `GroupConfigurationsListView.get`.

External collaborators (the `requests` HTTP library, `json`, `hashlib`,
Django's `slugify`, the task queue, the ORM) are modelled by explicit
inputs or by faithful Lean implementations of the library functions the
code calls; each model is documented at its definition.
-/

namespace XQueue

/-!
## xqueue client (`xmodule/capa/xqueue_interface.py`)

`parse_xreply` runs `json.loads` on the reply body and reads the
`return_code` and `content` fields.  The JSON layer is external, so a reply
body is modelled by what `json.loads` yields on it: not JSON at all
(`ValueError`, caught by `parse_xreply`), a JSON value without the two
fields (`KeyError`/`TypeError`, which `parse_xreply` does not catch), or a
dict carrying an integer `return_code` and a string `content`.
-/

/-- Abstract result of `json.loads` on an xqueue reply body. -/
inductive XBody where
  /-- the body is not valid JSON: `json.loads` raises `ValueError` -/
  | invalidJson
  /-- valid JSON but not a dict with `return_code` and `content`:
      reading the fields raises, and `parse_xreply` does not catch it -/
  | missingFields
  /-- a dict with the two expected fields -/
  | reply (return_code : Int) (content : String)
  deriving DecidableEq, Repr

/-- `parse_xreply(xreply)`: `(1, "unexpected reply from server")` when the
body is not valid JSON, the `(return_code, content)` pair otherwise; an
uncaught exception is `Except.error`. -/
def parse_xreply : XBody → Except Unit (Int × String)
  | .invalidJson => .ok (1, "unexpected reply from server")
  | .missingFields => .error ()
  | .reply return_code content => .ok (return_code, content)

/-- Outcome of `self.session.post(...)` in `_http_post`: the `requests`
library is external, so the call is modelled by which of the three outcomes
the code distinguishes actually happened. -/
inductive HttpOutcome where
  /-- `requests.exceptions.ConnectionError` raised -/
  | connectionError
  /-- `requests.exceptions.ReadTimeout` raised -/
  | readTimeout
  /-- a response arrived, with this status code and this body -/
  | response (status_code : Nat) (body : XBody)
  deriving DecidableEq, Repr

/-- `XQueueInterface._http_post`, as a function of the HTTP outcome. -/
def _http_post (outcome : HttpOutcome) : Except Unit (Int × String) :=
  match outcome with
  | .connectionError => .ok (1, "cannot connect to server")
  | .readTimeout => .ok (1, "failed to read from the server")
  | .response status_code body =>
    if status_code ≠ 200 then
      .ok (1, "unexpected HTTP status code [" ++ toString status_code ++ "]")
    else
      parse_xreply body

/-!
`send_to_queue` calls `self._send_to_queue` (whose error code is `None` in
the submission-service branch, an integer otherwise) and possibly
`self._login` and a retry.  The two collaborators are modelled by the
values they return on each call; the file objects in `files_to_upload` are
modelled by their seek positions.
-/

/-- Python truthiness of the error code returned by `_send_to_queue`
(`None` is falsy, an integer is truthy iff nonzero). -/
def truthyCode : Option Int → Bool
  | none => false
  | some n => n != 0

/-- The values the collaborators of `send_to_queue` return: what the first
`_send_to_queue` call returns, what a second call would return, and what
`_login` would return. -/
structure SendEnv where
  send1 : Option Int × String
  send2 : Option Int × String
  login : Int × String

/-- Instrumented outcome of `send_to_queue`: the returned pair, plus the
seek positions of the uploaded files at each `_send_to_queue` invocation
(in order; `none` stands for `files_to_upload=None`), and whether `_login`
was called. -/
structure SendOutcome where
  result : Option Int × String
  sendCalls : List (Option (List Nat))
  loginCalled : Bool
  deriving DecidableEq, Repr

/-- `XQueueInterface.send_to_queue(header, body, files_to_upload)`:
first `_send_to_queue`; on a truthy error with message `login_required`,
`_login`; on login failure return the login error, otherwise rewind every
file with `seek(0)` and call `_send_to_queue` again. -/
def send_to_queue (env : SendEnv) (files_to_upload : Option (List Nat)) :
    SendOutcome :=
  let (error, msg) := env.send1
  if truthyCode error && (msg == "login_required") then
    let (lerror, lcontent) := env.login
    if lerror != 0 then
      { result := (some lerror, lcontent)
        sendCalls := [files_to_upload]
        loginCalled := true }
    else
      let rewound := files_to_upload.map (List.map (fun _ => 0))
      { result := env.send2
        sendCalls := [files_to_upload, rewound]
        loginCalled := true }
  else
    { result := (error, msg)
      sendCalls := [files_to_upload]
      loginCalled := false }

end XQueue

/-- C1: `send_to_queue` invokes `_send_to_queue` at most twice; a second
invocation happens exactly when the first returns a truthy error code with
message `login_required` and `_login` then returns error code 0, and before
the second invocation every uploaded file is rewound to position 0; when
`_login` returns a nonzero error code, the login error is returned and
there is no retry. -/
theorem C1_send_to_queue_retry_once (env : XQueue.SendEnv)
    (files : Option (List Nat)) :
    let out := XQueue.send_to_queue env files
    out.sendCalls.length ≤ 2 ∧
    (out.sendCalls.length = 2 ↔
      (XQueue.truthyCode env.send1.1 = true ∧ env.send1.2 = "login_required" ∧
        env.login.1 = 0)) ∧
    (out.sendCalls.length = 2 →
      out.sendCalls.getLast? = some (files.map (List.map (fun _ => 0)))) ∧
    ((XQueue.truthyCode env.send1.1 = true ∧ env.send1.2 = "login_required" ∧
        env.login.1 ≠ 0) →
      (out.result = (some env.login.1, env.login.2) ∧
        out.sendCalls.length = 1)) := by
  obtain ⟨⟨e1, m1⟩, s2, ⟨le, lc⟩⟩ := env
  simp only [XQueue.send_to_queue]
  by_cases h1 : XQueue.truthyCode e1 = true
  · by_cases h2 : m1 = "login_required"
    · by_cases h3 : le = 0
      · subst h2 h3
        simp [h1]
      · have : le != 0 := by simpa using h3
        simp [h1, h2, this, h3]
    · simp [h1, h2]
  · have h1' : XQueue.truthyCode e1 = false := by
      simpa using h1
    simp [h1']

/-- C4: `_http_post` maps a connection error to
`(1, "cannot connect to server")`, a read timeout to
`(1, "failed to read from the server")`, a non-200 status code to
`(1, "unexpected HTTP status code [<code>]")`, and only a 200 response has
its body parsed by `parse_xreply`, which yields
`(1, "unexpected reply from server")` on a body that is not valid JSON. -/
theorem C4_http_post_error_mapping :
    XQueue._http_post .connectionError = .ok (1, "cannot connect to server") ∧
    XQueue._http_post .readTimeout = .ok (1, "failed to read from the server") ∧
    (∀ (code : Nat) (body : XQueue.XBody), code ≠ 200 →
      XQueue._http_post (.response code body) =
        .ok (1, "unexpected HTTP status code [" ++ toString code ++ "]")) ∧
    (∀ body : XQueue.XBody,
      XQueue._http_post (.response 200 body) = XQueue.parse_xreply body) ∧
    XQueue.parse_xreply .invalidJson = .ok (1, "unexpected reply from server") := by
  refine ⟨rfl, rfl, ?_, ?_, rfl⟩
  · intro code body hcode
    simp [XQueue._http_post, hcode]
  · intro body
    simp [XQueue._http_post]

namespace Instructor

/-!
## Instructor API v2 (`lms/djangoapps/instructor/views/api_v2.py` and
`lms/djangoapps/instructor/constants.py`)
-/

/-- `ReportType` (`constants.py`): the twelve user-facing report type
identifiers of the instructor downloads API. -/
inductive ReportType where
  | ENROLLED_STUDENTS
  | PENDING_ENROLLMENTS
  | PENDING_ACTIVATIONS
  | ANONYMIZED_STUDENT_IDS
  | GRADE
  | PROBLEM_GRADE
  | PROBLEM_RESPONSES
  | ORA2_SUMMARY
  | ORA2_DATA
  | ORA2_SUBMISSION_FILES
  | ISSUED_CERTIFICATES
  | UNKNOWN
  deriving DecidableEq, Repr

/-- The string value of each `ReportType` member (`StrEnum` values). -/
def ReportType.value : ReportType → String
  | .ENROLLED_STUDENTS => "enrolled_students"
  | .PENDING_ENROLLMENTS => "pending_enrollments"
  | .PENDING_ACTIVATIONS => "pending_activations"
  | .ANONYMIZED_STUDENT_IDS => "anonymized_student_ids"
  | .GRADE => "grade"
  | .PROBLEM_GRADE => "problem_grade"
  | .PROBLEM_RESPONSES => "problem_responses"
  | .ORA2_SUMMARY => "ora2_summary"
  | .ORA2_DATA => "ora2_data"
  | .ORA2_SUBMISSION_FILES => "ora2_submission_files"
  | .ISSUED_CERTIFICATES => "issued_certificates"
  | .UNKNOWN => "unknown"

/-- The keys of the `report_handlers` dict in `GenerateReportView.post`,
in source order: the eleven report types that have a handler (`UNKNOWN`
has none). -/
def report_handlers : List ReportType :=
  [.ENROLLED_STUDENTS, .PENDING_ENROLLMENTS, .PENDING_ACTIVATIONS,
   .ANONYMIZED_STUDENT_IDS, .GRADE, .PROBLEM_GRADE, .PROBLEM_RESPONSES,
   .ORA2_SUMMARY, .ORA2_DATA, .ORA2_SUBMISSION_FILES, .ISSUED_CERTIFICATES]

/-- `report_handlers.get(report_type)`: the handler selected for the
requested report type string, if any. -/
def lookupHandler (report_type : String) : Option ReportType :=
  report_handlers.find? (fun rt => rt.value == report_type)

/-- An externally visible call a report handler makes: submitting an
asynchronous task to `task_api` (the external queue), computing report
contents synchronously (`instructor_analytics` / csv writing), or storing
a finished report (`upload_csv_file_to_report_store`). -/
inductive ExternalCall where
  | taskApiSubmit (name : String)
  | computeReport (name : String)
  | storeReport (name : String)
  deriving DecidableEq, Repr

/-- Whether a call is an asynchronous `task_api` submission. -/
def ExternalCall.isTaskApiSubmit : ExternalCall → Bool
  | .taskApiSubmit _ => true
  | _ => false

/-- Whether a call stores report contents from within the request. -/
def ExternalCall.isStoreReport : ExternalCall → Bool
  | .storeReport _ => true
  | _ => false

/-- The externally visible calls each `GenerateReportView` handler makes on
its success path, read off the handler bodies
(`_generate_enrolled_students_report` … `_generate_issued_certificates_report`). -/
def handlerCalls : ReportType → List ExternalCall
  | .ENROLLED_STUDENTS => [.taskApiSubmit "submit_calculate_students_features_csv"]
  | .PENDING_ENROLLMENTS => [.taskApiSubmit "submit_calculate_may_enroll_csv"]
  | .PENDING_ACTIVATIONS => [.taskApiSubmit "submit_calculate_inactive_enrolled_students_csv"]
  | .ANONYMIZED_STUDENT_IDS => [.taskApiSubmit "generate_anonymous_ids"]
  | .GRADE => [.taskApiSubmit "submit_calculate_grades_csv"]
  | .PROBLEM_GRADE => [.taskApiSubmit "submit_problem_grade_report"]
  | .PROBLEM_RESPONSES => [.taskApiSubmit "submit_calculate_problem_responses_csv"]
  | .ORA2_SUMMARY => [.taskApiSubmit "submit_export_ora2_summary"]
  | .ORA2_DATA => [.taskApiSubmit "submit_export_ora2_data"]
  | .ORA2_SUBMISSION_FILES => [.taskApiSubmit "submit_export_ora2_submission_files"]
  | .ISSUED_CERTIFICATES =>
      [.computeReport "issued_certificates", .storeReport "issued_certificates"]
  | .UNKNOWN => []

/-- The success message each handler returns. -/
def handlerMessage : ReportType → String
  | .ENROLLED_STUDENTS => "The enrolled student report is being created."
  | .PENDING_ENROLLMENTS => "The pending enrollments report is being created."
  | .PENDING_ACTIVATIONS => "The pending activations report is being created."
  | .ANONYMIZED_STUDENT_IDS => "The anonymized student IDs report is being created."
  | .GRADE => "The grade report is being created."
  | .PROBLEM_GRADE => "The problem grade report is being created."
  | .PROBLEM_RESPONSES => "The problem responses report is being created."
  | .ORA2_SUMMARY => "The ORA2 summary report is being created."
  | .ORA2_DATA => "The ORA2 data report is being created."
  | .ORA2_SUBMISSION_FILES => "The ORA2 submission files archive is being created."
  | .ISSUED_CERTIFICATES => "The issued certificates report has been created."
  | .UNKNOWN => ""

/-- How the selected handler terminates: successfully with its message, or
raising one of the three exception classes `post` catches. -/
inductive HandlerOutcome where
  | success
  | alreadyRunning
  | queueConnectionError
  | valueError (msg : String)
  deriving DecidableEq, Repr

/-- `GenerateReportView.post(request, course_id, report_type)`:
HTTP status code and message, as a function of the handler's outcome. -/
def generate_report_post (report_type : String) (outcome : HandlerOutcome) :
    Nat × String :=
  match lookupHandler report_type with
  | none => (400, "Invalid report type: " ++ report_type)
  | some rt =>
    match outcome with
    | .success => (200, handlerMessage rt)
    | .alreadyRunning =>
        (400, "A report generation task is already running. Please wait for it to complete.")
    | .queueConnectionError =>
        (503, "Unable to connect to the task queue. Please try again later.")
    | .valueError msg => (400, msg)

/-- Boolean "pattern is a prefix of the character list". -/
def isPrefixOfB : List Char → List Char → Bool
  | [], _ => true
  | _ :: _, [] => false
  | p :: ps, c :: cs => p == c && isPrefixOfB ps cs

/-- Boolean substring containment on character lists (Python's `in`). -/
def containsSub : List Char → List Char → Bool
  | s, pat =>
    if isPrefixOfB pat s then true
    else
      match s with
      | [] => false
      | _ :: rest => containsSub rest pat

/-- Python's `pat in s` for strings. -/
def strContains (s pat : String) : Bool := containsSub s.data pat.data

/-- Python's `str.lower()`, modelled character-wise (identical to CPython
for the ASCII range, which is all the detection patterns use). -/
def pyLower (s : String) : String := ⟨s.data.map Char.toLower⟩

/-- `ReportDownloadsView._detect_report_type_from_filename(filename)`:
lowercase the filename and test the patterns in the source's `elif`
order.  (The Python function returns the `.value` string of the member
returned here.) -/
def _detect_report_type_from_filename (filename : String) : ReportType :=
  let name_lower := pyLower filename
  if strContains name_lower "inactive_enrolled" then .PENDING_ACTIVATIONS
  else if strContains name_lower "problem_grade_report" then .PROBLEM_GRADE
  else if strContains name_lower "ora2_submission" || strContains name_lower "submission_files"
      || strContains name_lower "ora_submission" then .ORA2_SUBMISSION_FILES
  else if strContains name_lower "ora2_summary" || strContains name_lower "ora_summary" then
    .ORA2_SUMMARY
  else if strContains name_lower "ora2_data" || strContains name_lower "ora_data" then
    .ORA2_DATA
  else if strContains name_lower "may_enroll" then .PENDING_ENROLLMENTS
  else if strContains name_lower "student_state" || strContains name_lower "problem_responses" then
    .PROBLEM_RESPONSES
  else if strContains name_lower "anonymized_ids" || strContains name_lower "anon" then
    .ANONYMIZED_STUDENT_IDS
  else if strContains name_lower "issued_certificates" || strContains name_lower "certificate" then
    .ISSUED_CERTIFICATES
  else if strContains name_lower "grade_report" then .GRADE
  else if strContains name_lower "enrolled_students" || strContains name_lower "profile" then
    .ENROLLED_STUDENTS
  else .UNKNOWN

end Instructor

namespace Instructor

/-- The substring patterns `_detect_report_type_from_filename` tests, in
the order of the source's `elif` chain. -/
def detectPatterns : List String :=
  ["inactive_enrolled", "problem_grade_report", "ora2_submission",
   "submission_files", "ora_submission", "ora2_summary", "ora_summary",
   "ora2_data", "ora_data", "may_enroll", "student_state",
   "problem_responses", "anonymized_ids", "anon", "issued_certificates",
   "certificate", "grade_report", "enrolled_students", "profile"]

/-- The patterns tested before the `anonymized_ids`/`anon` branch. -/
def anonEarlierPatterns : List String :=
  ["inactive_enrolled", "problem_grade_report", "ora2_submission",
   "submission_files", "ora_submission", "ora2_summary", "ora_summary",
   "ora2_data", "ora_data", "may_enroll", "student_state",
   "problem_responses"]

end Instructor

/-- C2 counterexample: `issued_certificates` is a valid report type, yet
its handler makes no `task_api` submission at all — it computes the report
and stores it synchronously — and its status message says "has been
created", not "being created". -/
theorem C2_counterexample_issued_certificates :
    Instructor.lookupHandler "issued_certificates" =
      some Instructor.ReportType.ISSUED_CERTIFICATES ∧
    (Instructor.handlerCalls Instructor.ReportType.ISSUED_CERTIFICATES).all
      Instructor.ExternalCall.isTaskApiSubmit = false ∧
    (Instructor.handlerCalls Instructor.ReportType.ISSUED_CERTIFICATES).any
      Instructor.ExternalCall.isStoreReport = true ∧
    Instructor.strContains
      (Instructor.handlerMessage Instructor.ReportType.ISSUED_CERTIFICATES)
      "being created" = false ∧
    Instructor.handlerMessage Instructor.ReportType.ISSUED_CERTIFICATES =
      "The issued certificates report has been created." := by
  decide

/-- C2 (amended): for every valid report type other than
`issued_certificates`, the handler only submits an asynchronous `task_api`
job and returns an "is being created." message; the `issued_certificates`
handler instead computes and stores the report within the request cycle
and returns "has been created."; in both cases `post` answers 200 with the
handler's message. -/
theorem C2_generate_report_delegates_to_queue (rt : Instructor.ReportType)
    (hmem : rt ∈ Instructor.report_handlers) :
    (rt ≠ Instructor.ReportType.ISSUED_CERTIFICATES →
      (Instructor.handlerCalls rt).all Instructor.ExternalCall.isTaskApiSubmit = true ∧
      Instructor.strContains (Instructor.handlerMessage rt) "is being created." = true) ∧
    (rt = Instructor.ReportType.ISSUED_CERTIFICATES →
      (Instructor.handlerCalls rt).all Instructor.ExternalCall.isTaskApiSubmit = false ∧
      (Instructor.handlerCalls rt).any Instructor.ExternalCall.isStoreReport = true) ∧
    Instructor.generate_report_post rt.value .success =
      (200, Instructor.handlerMessage rt) := by
  revert hmem
  cases rt <;> decide

/-- C2 witness: the grade report handler only submits a task and announces
an "is being created." message. -/
theorem C2_generate_report_delegates_to_queue_witness :
    (Instructor.handlerCalls Instructor.ReportType.GRADE).all
      Instructor.ExternalCall.isTaskApiSubmit = true ∧
    Instructor.strContains
      (Instructor.handlerMessage Instructor.ReportType.GRADE)
      "is being created." = true :=
  (C2_generate_report_delegates_to_queue Instructor.ReportType.GRADE
    (by decide)).1 (by decide)

namespace Instructor

/-- A report type that is a key of `report_handlers` is found by the
dict lookup under its own string value. -/
theorem lookupHandler_value (rt : ReportType) (hmem : rt ∈ report_handlers) :
    lookupHandler rt.value = some rt := by
  revert hmem
  cases rt <;> decide

/-- When no handler key has the requested string value, the dict lookup
fails. -/
theorem lookupHandler_none (report_type : String)
    (h : ∀ rt ∈ report_handlers, rt.value ≠ report_type) :
    lookupHandler report_type = none := by
  refine List.find?_eq_none.mpr ?_
  intro rt hrt
  simpa using h rt hrt

end Instructor

/-- C3: `GenerateReportView.post` returns 400 when the report type string
matches none of the eleven handler keys; for a valid report type it
returns 400 on `AlreadyRunningError` and on `ValueError` (with the
error's message), 503 on `QueueConnectionError`, and 200 with the
handler's success message otherwise. -/
theorem C3_generate_report_status_codes (report_type : String)
    (outcome : Instructor.HandlerOutcome) :
    ((∀ rt ∈ Instructor.report_handlers, rt.value ≠ report_type) →
      Instructor.generate_report_post report_type outcome =
        (400, "Invalid report type: " ++ report_type)) ∧
    (∀ rt ∈ Instructor.report_handlers, rt.value = report_type →
      (outcome = .alreadyRunning →
        Instructor.generate_report_post report_type outcome =
          (400, "A report generation task is already running. Please wait for it to complete.")) ∧
      (outcome = .queueConnectionError →
        Instructor.generate_report_post report_type outcome =
          (503, "Unable to connect to the task queue. Please try again later.")) ∧
      (∀ m, outcome = .valueError m →
        Instructor.generate_report_post report_type outcome = (400, m)) ∧
      (outcome = .success →
        Instructor.generate_report_post report_type outcome =
          (200, Instructor.handlerMessage rt))) := by
  constructor
  · intro hnone
    simp [Instructor.generate_report_post, Instructor.lookupHandler_none report_type hnone]
  · intro rt hmem hval
    subst hval
    have hlook := Instructor.lookupHandler_value rt hmem
    refine ⟨?_, ?_, ?_, ?_⟩
    · rintro rfl
      simp [Instructor.generate_report_post, hlook]
    · rintro rfl
      simp [Instructor.generate_report_post, hlook]
    · rintro m rfl
      simp [Instructor.generate_report_post, hlook]
    · rintro rfl
      simp [Instructor.generate_report_post, hlook]

/-- C7 counterexample: the detection runs the `inactive_enrolled` test
first, so a filename that contains both `inactive_enrolled` and
`problem_grade_report` is classified `PENDING_ACTIVATIONS`, not
`PROBLEM_GRADE`. -/
theorem C7_counterexample_pattern_precedence :
    Instructor.strContains
      (Instructor.pyLower "inactive_enrolled_problem_grade_report.csv")
      "problem_grade_report" = true ∧
    Instructor._detect_report_type_from_filename
      "inactive_enrolled_problem_grade_report.csv" =
      Instructor.ReportType.PENDING_ACTIVATIONS := by
  decide

set_option maxHeartbeats 1600000 in
/-- C7 (amended): `_detect_report_type_from_filename` is total, returns
`UNKNOWN` when no pattern occurs in the lowercased filename, and matches
in a fixed precedence order: a filename containing `problem_grade_report`
is never classified `GRADE`, and is classified `PROBLEM_GRADE` unless the
earlier `inactive_enrolled` pattern also occurs; a filename containing
`anon` is never classified by the later certificate, grade or profile
patterns, and is classified `ANONYMIZED_STUDENT_IDS` unless one of the
twelve earlier patterns occurs. -/
theorem C7_detect_report_type_precedence (filename : String) :
    ((∀ p ∈ Instructor.detectPatterns,
        Instructor.strContains (Instructor.pyLower filename) p = false) →
      Instructor._detect_report_type_from_filename filename =
        Instructor.ReportType.UNKNOWN) ∧
    (Instructor.strContains (Instructor.pyLower filename) "problem_grade_report" = true →
      Instructor._detect_report_type_from_filename filename ≠
        Instructor.ReportType.GRADE ∧
      (Instructor.strContains (Instructor.pyLower filename) "inactive_enrolled" = false →
        Instructor._detect_report_type_from_filename filename =
          Instructor.ReportType.PROBLEM_GRADE)) ∧
    (Instructor.strContains (Instructor.pyLower filename) "anon" = true →
      (Instructor._detect_report_type_from_filename filename ≠
          Instructor.ReportType.ISSUED_CERTIFICATES ∧
        Instructor._detect_report_type_from_filename filename ≠
          Instructor.ReportType.GRADE ∧
        Instructor._detect_report_type_from_filename filename ≠
          Instructor.ReportType.ENROLLED_STUDENTS) ∧
      ((∀ p ∈ Instructor.anonEarlierPatterns,
          Instructor.strContains (Instructor.pyLower filename) p = false) →
        Instructor._detect_report_type_from_filename filename =
          Instructor.ReportType.ANONYMIZED_STUDENT_IDS)) := by
  refine ⟨?_, ?_, ?_⟩
  · intro hall
    have h1 := hall "inactive_enrolled" (by simp [Instructor.detectPatterns])
    have h2 := hall "problem_grade_report" (by simp [Instructor.detectPatterns])
    have h3 := hall "ora2_submission" (by simp [Instructor.detectPatterns])
    have h4 := hall "submission_files" (by simp [Instructor.detectPatterns])
    have h5 := hall "ora_submission" (by simp [Instructor.detectPatterns])
    have h6 := hall "ora2_summary" (by simp [Instructor.detectPatterns])
    have h7 := hall "ora_summary" (by simp [Instructor.detectPatterns])
    have h8 := hall "ora2_data" (by simp [Instructor.detectPatterns])
    have h9 := hall "ora_data" (by simp [Instructor.detectPatterns])
    have h10 := hall "may_enroll" (by simp [Instructor.detectPatterns])
    have h11 := hall "student_state" (by simp [Instructor.detectPatterns])
    have h12 := hall "problem_responses" (by simp [Instructor.detectPatterns])
    have h13 := hall "anonymized_ids" (by simp [Instructor.detectPatterns])
    have h14 := hall "anon" (by simp [Instructor.detectPatterns])
    have h15 := hall "issued_certificates" (by simp [Instructor.detectPatterns])
    have h16 := hall "certificate" (by simp [Instructor.detectPatterns])
    have h17 := hall "grade_report" (by simp [Instructor.detectPatterns])
    have h18 := hall "enrolled_students" (by simp [Instructor.detectPatterns])
    have h19 := hall "profile" (by simp [Instructor.detectPatterns])
    simp [Instructor._detect_report_type_from_filename, h1, h2, h3, h4, h5, h6,
      h7, h8, h9, h10, h11, h12, h13, h14, h15, h16, h17, h18, h19]
  · intro hpgr
    constructor
    · simp only [Instructor._detect_report_type_from_filename]
      split_ifs with h1 h2 h3 h4 h5 h6 h7 h8 h9 h10 h11 <;>
        first
          | decide
          | exact absurd hpgr h2
    · intro hie
      simp [Instructor._detect_report_type_from_filename, hie, hpgr]
  · intro hanon
    constructor
    · simp only [Instructor._detect_report_type_from_filename]
      split_ifs with h1 h2 h3 h4 h5 h6 h7 h8 h9 h10 h11 <;>
        first
          | decide
          | (simp only [Bool.or_eq_true, not_or] at h8
             exact absurd hanon h8.2)
    · intro hall
      have h1 := hall "inactive_enrolled" (by simp [Instructor.anonEarlierPatterns])
      have h2 := hall "problem_grade_report" (by simp [Instructor.anonEarlierPatterns])
      have h3 := hall "ora2_submission" (by simp [Instructor.anonEarlierPatterns])
      have h4 := hall "submission_files" (by simp [Instructor.anonEarlierPatterns])
      have h5 := hall "ora_submission" (by simp [Instructor.anonEarlierPatterns])
      have h6 := hall "ora2_summary" (by simp [Instructor.anonEarlierPatterns])
      have h7 := hall "ora_summary" (by simp [Instructor.anonEarlierPatterns])
      have h8 := hall "ora2_data" (by simp [Instructor.anonEarlierPatterns])
      have h9 := hall "ora_data" (by simp [Instructor.anonEarlierPatterns])
      have h10 := hall "may_enroll" (by simp [Instructor.anonEarlierPatterns])
      have h11 := hall "student_state" (by simp [Instructor.anonEarlierPatterns])
      have h12 := hall "problem_responses" (by simp [Instructor.anonEarlierPatterns])
      simp [Instructor._detect_report_type_from_filename, h1, h2, h3, h4, h5, h6,
        h7, h8, h9, h10, h11, h12, hanon]

/-- C7 witness: a plain grade-report filename containing
`problem_grade_report` is classified `PROBLEM_GRADE` and not `GRADE`. -/
theorem C7_detect_report_type_precedence_witness :
    Instructor._detect_report_type_from_filename
      "demo_problem_grade_report_2024.csv" ≠ Instructor.ReportType.GRADE ∧
    Instructor._detect_report_type_from_filename
      "demo_problem_grade_report_2024.csv" = Instructor.ReportType.PROBLEM_GRADE := by
  have h := (C7_detect_report_type_precedence "demo_problem_grade_report_2024.csv").2.1
    (by decide)
  exact ⟨h.1, h.2 (by decide)⟩

namespace Instructor

/-- First code points of the 66 ranges of Unicode 14.0 general category
`Nd` (decimal digit).  Each range is ten consecutive code points whose
decimal values are 0–9 in order.  Python's `re` module matches `\d`
against exactly the characters of category `Nd` (checked against
`unicodedata` 14.0.0: `re.match(r'\d', chr(c))` succeeds iff
`unicodedata.category(chr(c)) == 'Nd'`, and every `Nd` range has this
base-plus-offset shape). -/
def ndRangeStarts : List Nat :=
  [0x30, 0x660, 0x6F0, 0x7C0, 0x966, 0x9E6, 0xA66, 0xAE6, 0xB66, 0xBE6,
   0xC66, 0xCE6, 0xD66, 0xDE6, 0xE50, 0xED0, 0xF20, 0x1040, 0x1090, 0x17E0,
   0x1810, 0x1946, 0x19D0, 0x1A80, 0x1A90, 0x1B50, 0x1BB0, 0x1C40, 0x1C50,
   0xA620, 0xA8D0, 0xA900, 0xA9D0, 0xA9F0, 0xAA50, 0xABF0, 0xFF10, 0x104A0,
   0x10D30, 0x11066, 0x110F0, 0x11136, 0x111D0, 0x112F0, 0x11450, 0x114D0,
   0x11650, 0x116C0, 0x11730, 0x118E0, 0x11950, 0x11C50, 0x11D50, 0x11DA0,
   0x16A60, 0x16AC0, 0x16B50, 0x1D7CE, 0x1D7D8, 0x1D7E2, 0x1D7EC, 0x1D7F6,
   0x1E140, 0x1E2F0, 0x1E950, 0x1FBF0]

/-- `\d` in Python's `re`: any Unicode decimal digit (category `Nd`),
not only the ASCII digits. -/
def isDigitChar (c : Char) : Bool :=
  ndRangeStarts.any (fun b => b ≤ c.toNat && c.toNat ≤ b + 9)

/-- Decimal value of a Unicode decimal digit, as `int()` converts the
captured groups: the offset of the code point within its `Nd` range. -/
def digitVal (c : Char) : Nat :=
  match ndRangeStarts.find? (fun b => b ≤ c.toNat && c.toNat ≤ b + 9) with
  | some b => c.toNat - b
  | none => 0

/-- Membership of a character in an ASCII character-class range such as
`[0-3]`, as the literal classes of `_strptime`'s directive patterns use. -/
def asciiBetween (lo hi c : Char) : Bool := lo ≤ c && c ≤ hi

/-- The twelve digit characters captured by the regex
`_(\d{4}-\d{2}-\d{2}-\d{4})`: four year, two month, two day, two hour
and two minute characters (as `%Y-%m-%d-%H%M` splits them).  The
characters themselves are kept because `strptime`'s acceptance depends
on which characters appear, not only on their values. -/
structure DateMatch where
  y1 : Char
  y2 : Char
  y3 : Char
  y4 : Char
  m1 : Char
  m2 : Char
  d1 : Char
  d2 : Char
  h1 : Char
  h2 : Char
  n1 : Char
  n2 : Char
  deriving DecidableEq, Repr

/-- `int()` of the four-character year group. -/
def DateMatch.year (p : DateMatch) : Nat :=
  ((digitVal p.y1 * 10 + digitVal p.y2) * 10 + digitVal p.y3) * 10 + digitVal p.y4

/-- `int()` of the two-character month group. -/
def DateMatch.month (p : DateMatch) : Nat := digitVal p.m1 * 10 + digitVal p.m2

/-- `int()` of the two-character day group. -/
def DateMatch.day (p : DateMatch) : Nat := digitVal p.d1 * 10 + digitVal p.d2

/-- `int()` of the two-character hour group. -/
def DateMatch.hour (p : DateMatch) : Nat := digitVal p.h1 * 10 + digitVal p.h2

/-- `int()` of the two-character minute group. -/
def DateMatch.minute (p : DateMatch) : Nat := digitVal p.n1 * 10 + digitVal p.n2

/-- Match the regex `_(\d{4}-\d{2}-\d{2}-\d{4})` at the start of the
character list: an underscore, four digits, a dash, two digits, a dash,
two digits, a dash and four digits, each digit any Unicode decimal
digit. -/
def dateShapeAt : List Char → Option DateMatch
  | '_' :: y1 :: y2 :: y3 :: y4 :: '-' :: m1 :: m2 :: '-' :: d1 :: d2 :: '-'
      :: h1 :: h2 :: n1 :: n2 :: _ =>
    if [y1, y2, y3, y4, m1, m2, d1, d2, h1, h2, n1, n2].all isDigitChar then
      some { y1, y2, y3, y4, m1, m2, d1, d2, h1, h2, n1, n2 }
    else none
  | _ => none

/-- `re.search`: the leftmost position where the pattern matches. -/
def findDateMatch : List Char → Option DateMatch
  | [] => none
  | c :: rest =>
    match dateShapeAt (c :: rest) with
    | some p => some p
    | none => findDateMatch rest

/-- Gregorian leap year, as `datetime` validates dates. -/
def isLeapYear (y : Nat) : Bool := (y % 4 == 0 && y % 100 != 0) || y % 400 == 0

/-- Days in a month, as `datetime` validates dates. -/
def daysInMonth (y m : Nat) : Nat :=
  if m == 2 then (if isLeapYear y then 29 else 28)
  else if m == 4 || m == 6 || m == 9 || m == 11 then 30
  else 31

/-- Whether `datetime.strptime(date_str, '%Y-%m-%d-%H%M')` accepts the
captured fifteen-character string; otherwise it raises `ValueError`.
`_strptime` compiles the format to the regex
`(?P<Y>\d\d\d\d)-(?P<m>1[0-2]|0[1-9]|[1-9])-(?P<d>3[0-1]|[1-2]\d|0[1-9]|[1-9]| [1-9])-(?P<H>2[0-3]|[0-1]\d|\d)(?P<M>[0-5]\d|\d)`
and raises `ValueError` when it does not match or leaves unconverted
data.  On our fixed-width input a one-character alternative for `%m` or
`%d` puts the following literal `-` against a digit, and one for `%H` or
`%M` leaves a trailing digit unconverted, so acceptance forces the
two-character alternatives: the bracketed class characters are ASCII
literals while each bare `\d` admits any Unicode digit.  `datetime` then
checks `MINYEAR <= year` and the day against the month length (the other
field ranges are already forced by the regex). -/
def validDateTime (p : DateMatch) : Bool :=
  ((p.m1 == '1' && asciiBetween '0' '2' p.m2)
    || (p.m1 == '0' && asciiBetween '1' '9' p.m2))
  && ((p.d1 == '3' && asciiBetween '0' '1' p.d2)
    || p.d1 == '1' || p.d1 == '2'
    || (p.d1 == '0' && asciiBetween '1' '9' p.d2))
  && ((p.h1 == '2' && asciiBetween '0' '3' p.h2) || p.h1 == '0' || p.h1 == '1')
  && asciiBetween '0' '5' p.n1
  && 1 ≤ p.year && p.day ≤ daysInMonth p.year p.month

/-- Zero-padded two-digit rendering (`%m`, `%d`, `%H`, `%M`, `%S`). -/
def pad2 (n : Nat) : String := if n < 10 then "0" ++ toString n else toString n

/-- `%Y` rendering.  CPython delegates `%Y` to the platform `strftime`,
which on this platform (glibc) renders the year as an unpadded decimal
number: year 999 renders as `999`, not `0999`. -/
def formatYear (n : Nat) : String := toString n

/-- `dt.strftime('%Y-%m-%dT%H:%M:%SZ')` for a datetime parsed with
`%Y-%m-%d-%H%M` (so seconds are always 00). -/
def formatIsoZ (p : DateMatch) : String :=
  formatYear p.year ++ "-" ++ pad2 p.month ++ "-" ++ pad2 p.day ++ "T"
    ++ pad2 p.hour ++ ":" ++ pad2 p.minute ++ ":00Z"

/-- `ReportDownloadsView._extract_date_from_filename(filename)`:
search for the first `_(\d{4}-\d{2}-\d{2}-\d{4})` match, parse it with
`strptime('%Y-%m-%d-%H%M')`, and render it with
`strftime('%Y-%m-%dT%H:%M:%SZ')`; `None` when there is no match or
parsing raises `ValueError`. -/
def _extract_date_from_filename (filename : String) : Option String :=
  match findDateMatch filename.data with
  | none => none
  | some p => if validDateTime p then some (formatIsoZ p) else none

/-- The scan finds nothing when the shape matches at no position. -/
theorem findDateMatch_eq_none (l : List Char)
    (h : ∀ i, dateShapeAt (l.drop i) = none) : findDateMatch l = none := by
  induction l with
  | nil => rfl
  | cons c rest ih =>
    have h0 := h 0
    simp only [List.drop_zero] at h0
    simp only [findDateMatch, h0]
    exact ih (fun i => h (i + 1))

/-- The scan returns the leftmost match. -/
theorem findDateMatch_eq_of_first (l : List Char) (i : Nat) (p : DateMatch)
    (hi : dateShapeAt (l.drop i) = some p)
    (hmin : ∀ j < i, dateShapeAt (l.drop j) = none) :
    findDateMatch l = some p := by
  induction l generalizing i with
  | nil =>
    simp [dateShapeAt] at hi
  | cons c rest ih =>
    cases i with
    | zero =>
      simp only [List.drop_zero] at hi
      simp only [findDateMatch, hi]
    | succ i' =>
      have h0 := hmin 0 (Nat.succ_pos i')
      simp only [List.drop_zero] at h0
      simp only [findDateMatch, h0]
      exact ih i' hi (fun j hj => hmin (j + 1) (Nat.succ_lt_succ hj))

end Instructor

/-- C8: `_extract_date_from_filename` returns the
`%Y-%m-%dT%H:%M:%SZ`-rendering (seconds always zero) of the first
substring of the filename of the shape `_dddd-dd-dd-dddd` whenever that
substring parses as a valid date-time under `%Y-%m-%d-%H%M`, and `None`
whenever no such substring exists or parsing raises `ValueError`. -/
theorem C8_extract_date_from_filename (filename : String) :
    ((∀ i, Instructor.dateShapeAt (filename.data.drop i) = none) →
      Instructor._extract_date_from_filename filename = none) ∧
    (∀ i p, Instructor.dateShapeAt (filename.data.drop i) = some p →
      (∀ j < i, Instructor.dateShapeAt (filename.data.drop j) = none) →
      Instructor._extract_date_from_filename filename =
        (if Instructor.validDateTime p then some (Instructor.formatIsoZ p)
         else none)) ∧
    (∀ s, Instructor._extract_date_from_filename filename = some s →
      (∃ p, Instructor.validDateTime p = true ∧ s = Instructor.formatIsoZ p) ∧
      s.data.drop (s.data.length - 4) = [':', '0', '0', 'Z']) := by
  refine ⟨?_, ?_, ?_⟩
  · intro h
    simp [Instructor._extract_date_from_filename,
      Instructor.findDateMatch_eq_none filename.data h]
  · intro i p hi hmin
    simp [Instructor._extract_date_from_filename,
      Instructor.findDateMatch_eq_of_first filename.data i p hi hmin]
  · intro s hs
    unfold Instructor._extract_date_from_filename at hs
    rcases hfind : Instructor.findDateMatch filename.data with _ | p
    · rw [hfind] at hs
      exact absurd hs (by simp)
    · rw [hfind] at hs
      dsimp only at hs
      rcases hvalid : Instructor.validDateTime p with _ | _
      · rw [hvalid] at hs
        exact absurd hs (by simp)
      · rw [hvalid] at hs
        simp only [if_true] at hs
        have hsval : s = Instructor.formatIsoZ p := by
          simpa using hs.symm
        refine ⟨⟨p, hvalid, hsval⟩, ?_⟩
        subst hsval
        have hsplit : (Instructor.formatIsoZ p).data =
            (Instructor.formatYear p.year ++ "-" ++ Instructor.pad2 p.month ++ "-"
              ++ Instructor.pad2 p.day ++ "T" ++ Instructor.pad2 p.hour ++ ":"
              ++ Instructor.pad2 p.minute).data ++ [':', '0', '0', 'Z'] := by
          simp [Instructor.formatIsoZ, String.data_append]
        rw [hsplit, List.length_append]
        have h4 : ([':', '0', '0', 'Z'] : List Char).length = 4 := rfl
        rw [h4, Nat.add_sub_cancel]
        exact List.drop_left _ _

/-- C8 witness: a concrete filename with a valid embedded timestamp. -/
theorem C8_extract_date_from_filename_witness :
    Instructor._extract_date_from_filename "r_2024-01-26-1030.csv" =
      some "2024-01-26T10:30:00Z" := by
  have h := (C8_extract_date_from_filename "r_2024-01-26-1030.csv").2.1 1
    ⟨'2', '0', '2', '4', '0', '1', '2', '6', '1', '0', '3', '0'⟩
    (by decide) (by decide)
  rw [h]
  decide

/-- Non-ASCII check: `\d` matches Arabic-Indic digits, so a filename whose
year group is written with them still parses, and `int()` of the group
gives 2024 (matches the running program on `'_٢٠٢٤-01-26-1030.csv'`). -/
theorem extract_date_unicode_year_example :
    Instructor._extract_date_from_filename "_٢٠٢٤-01-26-1030.csv" =
      some "2024-01-26T10:30:00Z" := by decide

/-- Non-ASCII check: the first character of the month group must satisfy
the ASCII classes of `%m`'s pattern, so an Arabic-Indic month makes
`strptime` raise and the function return `None`. -/
theorem extract_date_unicode_month_example :
    Instructor._extract_date_from_filename "_2024-٠١-26-1030.csv" = none := by
  decide

/-- Non-ASCII check: the second day character sits under a bare `\d` in
`%d`'s pattern (`[1-2]\d`), so an Arabic-Indic digit is accepted there. -/
theorem extract_date_unicode_day_example :
    Instructor._extract_date_from_filename "_2024-01-2٥-1030.csv" =
      some "2024-01-25T10:30:00Z" := by decide

/-- Platform `%Y` check: year 999 renders unpadded as `999` (matches the
running program on `'_0999-01-26-1030'`). -/
theorem extract_date_year_999_example :
    Instructor._extract_date_from_filename "_0999-01-26-1030.csv" =
      some "999-01-26T10:30:00Z" := by decide

namespace SearchDocs

/-!
## Search documents (`openedx/core/djangoapps/content/search/documents.py`)

`meili_id_from_opaque_key(key)` computes
`slugify(str(key)) + "-" + blake2b(str(key).encode(), digest_size=4).hexdigest()`.
An opaque key enters only through `str(key)`, so keys are modelled by that
string.  `django.utils.text.slugify` and `hashlib.blake2b` are external
library functions; both are implemented here: slugify exactly as its
source (with Unicode NFKD normalisation modelled as the identity — exact
on ASCII input — before the `encode('ascii', 'ignore')` step drops
non-ASCII characters), and blake2b from RFC 7693 (unkeyed, `digest_size=4`;
the claims depend only on the digest being a deterministic 4-byte value).
-/

/-- Python's `\s` on the characters that survive the ASCII-encode step
(tab, LF, VT, FF, CR, the FS/GS/RS/US separators, space). -/
def pyIsSpace (c : Char) : Bool :=
  c.toNat == 9 || c.toNat == 10 || c.toNat == 11 || c.toNat == 12
    || c.toNat == 13 || c.toNat == 28 || c.toNat == 29 || c.toNat == 30
    || c.toNat == 31 || c.toNat == 32

/-- ASCII letter or digit. -/
def isAsciiAlnum (c : Char) : Bool :=
  ('a' ≤ c && c ≤ 'z') || ('A' ≤ c && c ≤ 'Z') || ('0' ≤ c && c ≤ '9')

/-- Python's `\w` on ASCII characters. -/
def pyIsWord (c : Char) : Bool := isAsciiAlnum c || c == '_'

/-- A dash or whitespace character (the class `[-\s]`). -/
def isDashSpace (c : Char) : Bool := c == '-' || pyIsSpace c

/-- `re.sub(r"[-\s]+", "-", value)`: replace each maximal run of dashes
and whitespace by a single dash.  The flag records whether the previous
character belonged to such a run. -/
def collapseAux : Bool → List Char → List Char
  | _, [] => []
  | inRun, c :: rest =>
    if isDashSpace c then
      if inRun then collapseAux true rest
      else '-' :: collapseAux true rest
    else c :: collapseAux false rest

/-- A character stripped by `.strip("-_")`. -/
def isStripChar (c : Char) : Bool := c == '-' || c == '_'

/-- `str.strip("-_")`: drop leading and trailing dashes and underscores. -/
def stripDashUnderscore (l : List Char) : List Char :=
  ((l.dropWhile isStripChar).reverse.dropWhile isStripChar).reverse

/-- `django.utils.text.slugify(value)` (with `allow_unicode=False`):
NFKD-normalise (modelled as the identity), drop non-ASCII characters
(`encode('ascii', 'ignore')`), lowercase, remove characters outside
`[\w\s-]`, collapse `[-\s]+` runs to `-`, and strip `-_` from the ends. -/
def slugify (s : String) : String :=
  let ascii := s.data.filter (fun c => c.toNat < 128)
  let lowered := ascii.map Char.toLower
  let kept := lowered.filter (fun c => pyIsWord c || pyIsSpace c || c == '-')
  ⟨stripDashUnderscore (collapseAux false kept)⟩

/-! ### blake2b (RFC 7693), over `Nat` with explicit mod `2^64` -/

/-- `2^64`. -/
def M64 : Nat := 18446744073709551616

/-- 64-bit modular addition. -/
def add64 (a b : Nat) : Nat := (a + b) % M64

/-- Bitwise xor (stays below `2^64` on 64-bit inputs). -/
def xor64 (a b : Nat) : Nat := Nat.xor a b

/-- 64-bit right rotation. -/
def ror64 (x n : Nat) : Nat := ((x >>> n) ||| (x <<< (64 - n))) % M64

/-- The blake2b initialisation vector. -/
def blakeIV : List Nat :=
  [0x6a09e667f3bcc908, 0xbb67ae8584caa73b, 0x3c6ef372fe94f82b,
   0xa54ff53a5f1d36f1, 0x510e527fade682d1, 0x9b05688c2b3e6c1f,
   0x1f83d9abfb41bd6b, 0x5be0cd19137e2179]

/-- The blake2b message schedule. -/
def blakeSigma : List (List Nat) :=
  [[0, 1, 2, 3, 4, 5, 6, 7, 8, 9, 10, 11, 12, 13, 14, 15],
   [14, 10, 4, 8, 9, 15, 13, 6, 1, 12, 0, 2, 11, 7, 5, 3],
   [11, 8, 12, 0, 5, 2, 15, 13, 10, 14, 3, 6, 7, 1, 9, 4],
   [7, 9, 3, 1, 13, 12, 11, 14, 2, 6, 5, 10, 4, 0, 15, 8],
   [9, 0, 5, 7, 2, 4, 10, 15, 14, 1, 11, 12, 6, 8, 3, 13],
   [2, 12, 6, 10, 0, 11, 8, 3, 4, 13, 7, 5, 15, 14, 1, 9],
   [12, 5, 1, 15, 14, 13, 4, 10, 0, 7, 6, 3, 9, 2, 8, 11],
   [13, 11, 7, 14, 12, 1, 3, 9, 5, 0, 15, 4, 8, 6, 2, 10],
   [6, 15, 14, 9, 11, 3, 0, 8, 12, 2, 13, 7, 1, 4, 10, 5],
   [10, 2, 8, 4, 7, 6, 1, 5, 15, 11, 9, 14, 3, 12, 13, 0]]

/-- Read a word of the working vector. -/
def vget (v : List Nat) (i : Nat) : Nat := v.getD i 0

/-- Write a word of the working vector. -/
def vset (v : List Nat) (i : Nat) (x : Nat) : List Nat := v.set i x

/-- The blake2b mixing function G. -/
def blakeG (v : List Nat) (a b c d x y : Nat) : List Nat :=
  let va := add64 (add64 (vget v a) (vget v b)) x
  let vd := ror64 (xor64 (vget v d) va) 32
  let vc := add64 (vget v c) vd
  let vb := ror64 (xor64 (vget v b) vc) 24
  let va2 := add64 (add64 va vb) y
  let vd2 := ror64 (xor64 vd va2) 16
  let vc2 := add64 vc vd2
  let vb2 := ror64 (xor64 vb vc2) 63
  vset (vset (vset (vset v a va2) b vb2) c vc2) d vd2

/-- One blake2b round over the working vector, with message words `m`. -/
def blakeRound (m : List Nat) (v : List Nat) (r : Nat) : List Nat :=
  let s := blakeSigma.getD (r % 10) []
  let mw := fun i => m.getD (s.getD i 0) 0
  let v1 := blakeG v 0 4 8 12 (mw 0) (mw 1)
  let v2 := blakeG v1 1 5 9 13 (mw 2) (mw 3)
  let v3 := blakeG v2 2 6 10 14 (mw 4) (mw 5)
  let v4 := blakeG v3 3 7 11 15 (mw 6) (mw 7)
  let v5 := blakeG v4 0 5 10 15 (mw 8) (mw 9)
  let v6 := blakeG v5 1 6 11 12 (mw 10) (mw 11)
  let v7 := blakeG v6 2 7 8 13 (mw 12) (mw 13)
  let v8 := blakeG v7 3 4 9 14 (mw 14) (mw 15)
  v8

/-- Little-endian combination of up to 8 bytes into one 64-bit word. -/
def le64 (bytes : List Nat) : Nat :=
  bytes.reverse.foldl (fun acc b => acc * 256 + b % 256) 0

/-- Split a 128-byte block into sixteen little-endian 64-bit words. -/
def blockWords (block : List Nat) : List Nat :=
  (List.range 16).map (fun i => le64 ((block.drop (8 * i)).take 8))

/-- Zero-pad a final partial block to 128 bytes. -/
def padBlock (b : List Nat) : List Nat := b ++ List.replicate (128 - b.length) 0

/-- The blake2b compression function F. -/
def blakeCompress (h : List Nat) (m : List Nat) (t : Nat) (last : Bool) :
    List Nat :=
  let v0 := h ++ blakeIV
  let v1 := vset v0 12 (xor64 (vget v0 12) (t % M64))
  let v2 := vset v1 13 (xor64 (vget v1 13) ((t / M64) % M64))
  let v3 := if last then vset v2 14 (xor64 (vget v2 14) (M64 - 1)) else v2
  let vf := (List.range 12).foldl (blakeRound m) v3
  (List.range 8).map (fun i => xor64 (vget h i) (xor64 (vget vf i) (vget vf (i + 8))))

/-- Split the message into 128-byte chunks (one, possibly empty, chunk
when the message is at most 128 bytes, as the final block). -/
def chunks128 (l : List Nat) : List (List Nat) :=
  if h : l.length ≤ 128 then [l]
  else l.take 128 :: chunks128 (l.drop 128)
termination_by l.length
decreasing_by
  simp only [List.length_drop]
  omega

/-- Process the chunk sequence: full blocks with a running byte counter,
then the zero-padded final block with the total length and the
finalisation flag. -/
def blakeBlocks (h : List Nat) (bytesBefore : Nat) (total : Nat) :
    List (List Nat) → List Nat
  | [] => h
  | [b] => blakeCompress h (blockWords (padBlock b)) total true
  | b :: rest =>
    blakeBlocks (blakeCompress h (blockWords b) (bytesBefore + 128) false)
      (bytesBefore + 128) total rest

/-- `hashlib.blake2b(input, digest_size=4).digest()`: parameter block
`0x01010000 ^ digest_size` xor-ed into `h0`, message compressed in
128-byte blocks, digest = first 4 bytes of the little-endian state. -/
def blake2b4 (input : List Nat) : List Nat :=
  let h0 := vset blakeIV 0 (xor64 (vget blakeIV 0) 0x01010004)
  let hf := blakeBlocks h0 0 input.length (chunks128 (input.map (· % 256)))
  let w := vget hf 0
  [w % 256, (w >>> 8) % 256, (w >>> 16) % 256, (w >>> 24) % 256]

/-- The ten decimal digit characters. -/
def decDigits : List Char := ['0', '1', '2', '3', '4', '5', '6', '7', '8', '9']

/-- The sixteen lowercase hex digits. -/
def hexDigits : List Char := decDigits ++ ['a', 'b', 'c', 'd', 'e', 'f']

/-- A hex digit character. -/
def hexDigit (n : Nat) : Char := hexDigits.getD n '0'

/-- Two-character lowercase hex rendering of a byte. -/
def byteHex (b : Nat) : List Char := [hexDigit (b / 16), hexDigit (b % 16)]

/-- `.hexdigest()`: lowercase hex rendering of a byte list. -/
def hexdigest (bytes : List Nat) : String := ⟨(bytes.map byteHex).flatten⟩

/-- UTF-8 encoding of one character (`str.encode()`). -/
def utf8EncodeCharNat (c : Char) : List Nat :=
  let n := c.toNat
  if n < 0x80 then [n]
  else if n < 0x800 then
    [0xC0 ||| (n >>> 6), 0x80 ||| (n &&& 0x3F)]
  else if n < 0x10000 then
    [0xE0 ||| (n >>> 12), 0x80 ||| ((n >>> 6) &&& 0x3F), 0x80 ||| (n &&& 0x3F)]
  else
    [0xF0 ||| (n >>> 18), 0x80 ||| ((n >>> 12) &&& 0x3F),
     0x80 ||| ((n >>> 6) &&& 0x3F), 0x80 ||| (n &&& 0x3F)]

/-- `str.encode()`: UTF-8 bytes of a string. -/
def strToUtf8 (s : String) : List Nat := (s.data.map utf8EncodeCharNat).flatten

/-- `meili_id_from_opaque_key(key)`, as a function of `str(key)`. -/
def meili_id_from_opaque_key (key_str : String) : String :=
  slugify key_str ++ "-" ++ hexdigest (blake2b4 (strToUtf8 key_str))

/-- A character Meilisearch accepts in a primary key. -/
def isMeiliChar (c : Char) : Bool := isAsciiAlnum c || c == '-' || c == '_'

end SearchDocs

namespace SearchDocs

/-- Characters produced by the run-collapsing step are dashes or
non-dash-space characters of the input. -/
theorem mem_collapseAux (c : Char) :
    ∀ (b : Bool) (l : List Char), c ∈ collapseAux b l →
      c = '-' ∨ (c ∈ l ∧ isDashSpace c = false) := by
  intro b l
  induction l generalizing b with
  | nil => simp [collapseAux]
  | cons x rest ih =>
    intro hc
    simp only [collapseAux] at hc
    by_cases hx : isDashSpace x = true
    · rw [if_pos hx] at hc
      by_cases hb : b = true
      · subst hb
        simp only [if_pos rfl] at hc
        rcases ih true hc with h | ⟨hmem, hds⟩
        · exact Or.inl h
        · exact Or.inr ⟨List.mem_cons_of_mem x hmem, hds⟩
      · have hb' : b = false := by simpa using hb
        subst hb'
        simp only [Bool.false_eq_true, if_false, List.mem_cons] at hc
        rcases hc with h | hc
        · exact Or.inl h
        · rcases ih true hc with h | ⟨hmem, hds⟩
          · exact Or.inl h
          · exact Or.inr ⟨List.mem_cons_of_mem x hmem, hds⟩
    · have hx' : isDashSpace x = false := by simpa using hx
      rw [hx'] at hc
      simp only [Bool.false_eq_true, if_false, List.mem_cons] at hc
      rcases hc with rfl | hc
      · exact Or.inr ⟨List.mem_cons_self _ _, hx'⟩
      · rcases ih false hc with h | ⟨hmem, hds⟩
        · exact Or.inl h
        · exact Or.inr ⟨List.mem_cons_of_mem x hmem, hds⟩

/-- The strip step only removes characters. -/
theorem mem_stripDashUnderscore (c : Char) (l : List Char)
    (h : c ∈ stripDashUnderscore l) : c ∈ l := by
  unfold stripDashUnderscore at h
  rw [List.mem_reverse] at h
  have h1 := List.dropWhile_sublist (l := (l.dropWhile isStripChar).reverse)
    (p := isStripChar)
  have h2 := h1.mem h
  rw [List.mem_reverse] at h2
  exact (List.dropWhile_sublist (l := l) (p := isStripChar)).mem h2

/-- Every character of a slug is an ASCII letter, a digit, a hyphen or an
underscore. -/
theorem slugify_chars (s : String) :
    ∀ c ∈ (slugify s).data, isMeiliChar c = true := by
  intro c hc
  simp only [slugify] at hc
  have hc2 := mem_stripDashUnderscore c _ hc
  rcases mem_collapseAux c false _ hc2 with rfl | ⟨hmem, hds⟩
  · rfl
  · have hp : pyIsWord c || pyIsSpace c || c == '-' := (List.mem_filter.mp hmem).2
    simp only [isDashSpace, Bool.or_eq_false_iff] at hds
    rcases hds with ⟨hdash, hspace⟩
    simp only [hdash, hspace, Bool.or_false] at hp
    simp [isMeiliChar, pyIsWord] at hp ⊢
    tauto

/-- Every hex digit character is one of the sixteen lowercase hex
digits. -/
theorem hexDigit_mem (n : Nat) : hexDigit n ∈ hexDigits := by
  unfold hexDigit
  rcases Nat.lt_or_ge n 16 with h | h
  · interval_cases n <;> decide
  · rw [List.getD_eq_default]
    · decide
    · simpa [hexDigits] using h

/-- Hex digits are Meilisearch-safe characters. -/
theorem hexDigit_isMeili (n : Nat) : isMeiliChar (hexDigit n) = true := by
  have h := hexDigit_mem n
  revert h
  generalize hexDigit n = c
  intro h
  fin_cases h <;> decide

/-- The 4-byte digest. -/
theorem blake2b4_length (input : List Nat) : (blake2b4 input).length = 4 := rfl

/-- The hexdigest of the 4-byte digest has eight characters. -/
theorem hexdigest_blake2b4_length (input : List Nat) :
    (hexdigest (blake2b4 input)).length = 8 := by
  simp [hexdigest, blake2b4, byteHex, String.length]

/-- Every character of a hexdigest is a hex digit. -/
theorem hexdigest_chars (bytes : List Nat) :
    ∀ c ∈ (hexdigest bytes).data, c ∈ hexDigits := by
  intro c hc
  simp only [hexdigest, List.mem_flatten] at hc
  rcases hc with ⟨l, hl, hcl⟩
  rcases List.mem_map.mp hl with ⟨b, _, rfl⟩
  simp only [byteHex, List.mem_cons, List.not_mem_nil, or_false] at hcl
  rcases hcl with rfl | rfl
  · exact hexDigit_mem _
  · exact hexDigit_mem _

end SearchDocs

/-- C5: the Meilisearch id of an opaque key is the slugified key string
followed by a hyphen and the 8-hex-digit blake2b digest of the key
string; every character of the id is an ASCII alphanumeric, a hyphen or
an underscore (a valid Meilisearch primary key), and equal keys get equal
ids. -/
theorem C5_meili_id_from_opaque_key (key_str : String) :
    SearchDocs.meili_id_from_opaque_key key_str =
      SearchDocs.slugify key_str ++ "-"
        ++ SearchDocs.hexdigest (SearchDocs.blake2b4 (SearchDocs.strToUtf8 key_str)) ∧
    (SearchDocs.hexdigest (SearchDocs.blake2b4 (SearchDocs.strToUtf8 key_str))).length = 8 ∧
    (∀ c ∈ (SearchDocs.hexdigest
        (SearchDocs.blake2b4 (SearchDocs.strToUtf8 key_str))).data,
      c ∈ SearchDocs.hexDigits) ∧
    (∀ c ∈ (SearchDocs.meili_id_from_opaque_key key_str).data,
      SearchDocs.isMeiliChar c = true) ∧
    (∀ key_str2, key_str = key_str2 →
      SearchDocs.meili_id_from_opaque_key key_str =
        SearchDocs.meili_id_from_opaque_key key_str2) := by
  refine ⟨rfl, SearchDocs.hexdigest_blake2b4_length _, SearchDocs.hexdigest_chars _, ?_, ?_⟩
  · intro c hc
    simp only [SearchDocs.meili_id_from_opaque_key, String.data_append] at hc
    rcases List.mem_append.mp hc with hc | hc
    · rcases List.mem_append.mp hc with hc | hc
      · exact SearchDocs.slugify_chars key_str c hc
      · have : c = '-' := by simpa using hc
        subst this
        rfl
    · have h := SearchDocs.hexdigest_chars _ c hc
      fin_cases h <;> decide
  · intro key_str2 h
    rw [h]

namespace CourseGroups

/-!
## Content groups REST API
(`openedx/core/djangoapps/course_groups/rest_api/views.py`)

`GroupConfigurationsListView.get` parses the course key, loads the course,
asks `get_cohorted_user_partition(course)` for the cohorted partition, and
builds the response.  The key parsing, the course lookup and the partition
lookup are external (opaque keys, modulestore, partition schemes), so they
are modelled by their observable outcome; a partition is modelled by its
id and the `group.to_json()` payloads of its groups; the
`ContentGroupsListResponseSerializer` passes the three fields through
unchanged. -/

/-- A cohorted user partition: its id and its groups' `to_json()`
payloads. -/
structure UserPartition where
  id : Nat
  groups : List String
  deriving DecidableEq, Repr

/-- Outcome of `CourseKey.from_string` plus `get_course_by_id` plus
`get_cohorted_user_partition`. -/
inductive CourseLookup where
  /-- `CourseKey.from_string` raises `InvalidKeyError` -/
  | invalidKey
  /-- `get_course_by_id` raises `ItemNotFoundError` -/
  | courseMissing
  /-- the course exists; `get_cohorted_user_partition` returns this -/
  | course (partition : Option UserPartition)
  deriving DecidableEq, Repr

/-- The serialized 200-response body. -/
structure GroupsListBody where
  id : Option Nat
  groups : List String
  studio_content_groups_link : String
  deriving DecidableEq, Repr

/-- An HTTP response of the view. -/
inductive GetResult where
  | badRequest (error : String)
  | notFound (error : String)
  | okResp (body : GroupsListBody)
  deriving DecidableEq, Repr

/-- `GroupConfigurationsListView.get(request, course_id)`:
400 on an invalid key, 404 on a missing course, otherwise 200 with the
partition id (or null), the group payloads (or `[]`), and the Studio link
built from `MFE_CONFIG`'s `STUDIO_BASE_URL` (empty string when the key is
absent). -/
def group_configurations_list_get (course_id : String)
    (lookup : CourseLookup) (studio_base_url_config : Option String) :
    GetResult :=
  match lookup with
  | .invalidKey => .badRequest ("Invalid course key: " ++ course_id)
  | .courseMissing => .notFound ("Course not found: " ++ course_id)
  | .course content_group_partition =>
    let pair :=
      match content_group_partition with
      | some p => (some p.id, p.groups)
      | none => (none, [])
    let studio_base_url := studio_base_url_config.getD ""
    .okResp
      { id := pair.1
        groups := pair.2
        studio_content_groups_link :=
          studio_base_url ++ "/course/" ++ course_id ++ "/group_configurations" }

end CourseGroups

/-- C10: when the course exists but has no cohorted user partition, the
view answers 200 with `id` null and `groups` empty, and every successful
response's `studio_content_groups_link` is the configured Studio base URL
followed by `/course/{course_id}/group_configurations`. -/
theorem C10_group_configurations_list (course_id : String)
    (studio_base : Option String) :
    CourseGroups.group_configurations_list_get course_id
        (.course none) studio_base =
      .okResp
        { id := none
          groups := []
          studio_content_groups_link :=
            studio_base.getD "" ++ "/course/" ++ course_id
              ++ "/group_configurations" } ∧
    (∀ (partition : Option CourseGroups.UserPartition)
        (body : CourseGroups.GroupsListBody),
      CourseGroups.group_configurations_list_get course_id
          (.course partition) studio_base = .okResp body →
      body.studio_content_groups_link =
        studio_base.getD "" ++ "/course/" ++ course_id
          ++ "/group_configurations") := by
  constructor
  · rfl
  · intro partition body h
    cases partition <;>
      (simp only [CourseGroups.group_configurations_list_get,
        CourseGroups.GetResult.okResp.injEq] at h
       rw [← h])

namespace SearchDocs

/-!
## `_tags_for_content_object` (`documents.py`)

`tagging_api.get_object_tags` is external; a tag is modelled by what the
function reads from it: `obj_tag.taxonomy.name` and `obj_tag.get_lineage()`
(the list of tag values from the root to the tag).  The Python `result`
dict is modelled by an insertion-ordered association list with Python's
`d[k] = v` / `d[k].append(v)` update semantics.
-/

/-- A tag on a content object: its taxonomy's name and its lineage. -/
structure ObjTag where
  taxonomyName : String
  lineage : List String
  deriving DecidableEq, Repr

/-- The `result` dict: insertion-ordered keys, list-of-string values. -/
abbrev TagDict := List (String × List String)

/-- Dict lookup (`k in d` / `d[k]`). -/
def dget? : TagDict → String → Option (List String)
  | [], _ => none
  | (k', v) :: rest, k => if k' = k then some v else dget? rest k

/-- Dict update `d[k] = v`: replace in place when the key exists,
append the new key at the end otherwise. -/
def dset : TagDict → String → List String → TagDict
  | [], k, v => [(k, v)]
  | (k', v') :: rest, k, v =>
    if k' = k then (k, v) :: rest else (k', v') :: dset rest k v

/-- `part.replace(" > ", " _ ")`: left-to-right, non-overlapping. -/
def replaceSep : List Char → List Char
  | ' ' :: '>' :: ' ' :: rest => ' ' :: '_' :: ' ' :: replaceSep rest
  | c :: rest => c :: replaceSep rest
  | [] => []

/-- Escape the hierarchy separator inside one part. -/
def escapeSep (s : String) : String := ⟨replaceSep s.data⟩

/-- `sep.join(parts)`. -/
def joinSep (sep : String) : List String → String
  | [] => ""
  | [x] => x
  | x :: rest => x ++ sep ++ joinSep sep rest

/-- The dict key `f"level{level}"`. -/
def levelKey (level : Nat) : String := "level" ++ toString level

/-- The escaped `parts` list of a tag:
`[obj_tag.taxonomy.name] + obj_tag.get_lineage()`, each part escaped. -/
def tagParts (tag : ObjTag) : List String :=
  (tag.taxonomyName :: tag.lineage).map escapeSep

/-- The value the loop builds for a tag at one level:
`" > ".join(parts[0:level + 2])`. -/
def tagLevelValue (tag : ObjTag) (level : Nat) : String :=
  joinSep " > " ((tagParts tag).take (level + 2))

/-- The body of the `for level in range(4)` loop for one level. -/
def addTagLevel (parts : List String) (d : TagDict) (level : Nat) : TagDict :=
  let new_value := joinSep " > " (parts.take (level + 2))
  match dget? d (levelKey level) with
  | none => dset d (levelKey level) [new_value]
  | some vs =>
    if new_value ∈ vs then d else dset d (levelKey level) (vs ++ [new_value])

/-- The `for level in range(4)` loop with its early `break` when
`len(parts) == level + 2`. -/
def addTagLevelsFrom (parts : List String) (d : TagDict) :
    List Nat → TagDict
  | [] => d
  | level :: rest =>
    let d' := addTagLevel parts d level
    if parts.length == level + 2 then d' else addTagLevelsFrom parts d' rest

/-- The taxonomy-name step of the loop body. -/
def addTaxonomyName (d : TagDict) (name : String) : TagDict :=
  let names := (dget? d "taxonomy").getD []
  if name ∈ names then d else dset d "taxonomy" (names ++ [name])

/-- One iteration of the `for obj_tag in all_tags` loop. -/
def processTag (d : TagDict) (tag : ObjTag) : TagDict :=
  let d1 := addTaxonomyName d tag.taxonomyName
  addTagLevelsFrom (tagParts tag) d1 [0, 1, 2, 3]

/-- `_tags_for_content_object`, as a function of the object's tags: the
value stored under `Fields.tags` ( `{}` when the object has no tags). -/
def _tags_for_content_object (all_tags : List ObjTag) : TagDict :=
  if all_tags.isEmpty then []
  else all_tags.foldl processTag [("taxonomy", []), ("level0", [])]

/-- The list stored under `f"level{k}"` (empty when the key is absent). -/
def levelList (d : TagDict) (k : Nat) : List String :=
  (dget? d (levelKey k)).getD []

/-- The keys the tags dict may carry. -/
def allowedTagKeys : List String :=
  ["taxonomy", "level0", "level1", "level2", "level3"]

end SearchDocs

/-- The docstring's own example: tags "Location: Vancouver" (lineage
North America > Canada > Vancouver) and "Difficulty: Hard". -/
theorem tags_docstring_example :
    SearchDocs._tags_for_content_object
        [⟨"Location", ["North America", "Canada", "Vancouver"]⟩,
         ⟨"Difficulty", ["Hard"]⟩] =
      [("taxonomy", ["Location", "Difficulty"]),
       ("level0", ["Location > North America", "Difficulty > Hard"]),
       ("level1", ["Location > North America > Canada"]),
       ("level2", ["Location > North America > Canada > Vancouver"])] := by
  decide

/-- An object with no tags yields the empty dict. -/
theorem tags_empty_example : SearchDocs._tags_for_content_object [] = [] := by
  decide

/-- A tag six levels deep stops at `level3`. -/
theorem tags_depth_limit_example :
    SearchDocs._tags_for_content_object
        [⟨"T", ["a", "b", "c", "d", "e", "f"]⟩] =
      [("taxonomy", ["T"]),
       ("level0", ["T > a"]),
       ("level1", ["T > a > b"]),
       ("level2", ["T > a > b > c"]),
       ("level3", ["T > a > b > c > d"])] := by
  decide

/-- The separator escape. -/
theorem escapeSep_example : SearchDocs.escapeSep "A > B" = "A _ B" := by
  decide

namespace SearchDocs

/-- Lookup after update at the same key. -/
theorem dget?_dset_self (d : TagDict) (k : String) (v : List String) :
    dget? (dset d k v) k = some v := by
  induction d with
  | nil => simp [dset, dget?]
  | cons kv rest ih =>
    obtain ⟨k', v'⟩ := kv
    by_cases h : k' = k
    · subst h
      simp [dset, dget?]
    · simp [dset, dget?, h, ih]

/-- Lookup after update at a different key. -/
theorem dget?_dset_ne (d : TagDict) (k k2 : String) (v : List String)
    (h : k2 ≠ k) : dget? (dset d k v) k2 = dget? d k2 := by
  induction d with
  | nil =>
    simp only [dset, dget?]
    rw [if_neg (fun hh => h hh.symm)]
  | cons kv rest ih =>
    obtain ⟨k', v'⟩ := kv
    by_cases hk : k' = k
    · subst hk
      simp only [dset, if_pos rfl, dget?]
      rw [if_neg (fun hh => h hh.symm), if_neg (fun hh => h hh.symm)]
    · by_cases hk2 : k' = k2
      · subst hk2
        simp [dset, dget?, hk]
      · simp [dset, dget?, hk, hk2, ih]

/-- An entry of an updated dict is the written pair or an entry of the
original dict. -/
theorem mem_dset (d : TagDict) (k : String) (v : List String)
    (kv : String × List String) (h : kv ∈ dset d k v) :
    kv = (k, v) ∨ kv ∈ d := by
  induction d with
  | nil => simpa [dset] using h
  | cons kv' rest ih =>
    obtain ⟨k', v'⟩ := kv'
    by_cases hk : k' = k
    · subst hk
      simp only [dset, if_true, eq_self_iff_true, List.mem_cons, if_pos] at h
      rcases h with h1 | h1
      · exact Or.inl h1
      · exact Or.inr (List.mem_cons_of_mem _ h1)
    · simp only [dset, if_neg hk, List.mem_cons] at h
      rcases h with h1 | h1
      · exact Or.inr (by simp [h1])
      · rcases ih h1 with h2 | h2
        · exact Or.inl h2
        · exact Or.inr (List.mem_cons_of_mem _ h2)

/-- The five allowed keys are pairwise distinct level keys plus
`"taxonomy"`. -/
theorem levelKey_inj_lt4 :
    ∀ k < 4, ∀ j < 4, levelKey k = levelKey j → k = j := by
  decide

/-- `"taxonomy"` is not a level key. -/
theorem levelKey_ne_taxonomy : ∀ k < 4, levelKey k ≠ "taxonomy" := by
  decide

end SearchDocs

namespace SearchDocs

/-- One level step leaves the other level lists unchanged. -/
theorem levelList_addTagLevel_ne (parts : List String) (d : TagDict)
    (level j : Nat) (hl : level < 4) (hj : j < 4) (hne : j ≠ level) :
    levelList (addTagLevel parts d level) j = levelList d j := by
  have hkey : levelKey j ≠ levelKey level := fun hEq =>
    hne (levelKey_inj_lt4 j hj level hl hEq)
  cases hd : dget? d (levelKey level) with
  | none =>
    simp [addTagLevel, levelList, hd, dget?_dset_ne _ _ _ _ hkey]
  | some vs =>
    by_cases hmem : joinSep " > " (parts.take (level + 2)) ∈ vs
    · simp [addTagLevel, levelList, hd, hmem]
    · simp [addTagLevel, levelList, hd, hmem, dget?_dset_ne _ _ _ _ hkey]

/-- Membership in the level list the step writes. -/
theorem mem_levelList_addTagLevel_self (parts : List String) (d : TagDict)
    (level : Nat) (v : String) :
    v ∈ levelList (addTagLevel parts d level) level ↔
      v ∈ levelList d level ∨ v = joinSep " > " (parts.take (level + 2)) := by
  cases hd : dget? d (levelKey level) with
  | none =>
    simp [addTagLevel, levelList, hd, dget?_dset_self]
  | some vs =>
    by_cases hmem : joinSep " > " (parts.take (level + 2)) ∈ vs
    · simp only [addTagLevel, hd, if_pos hmem, levelList, Option.getD_some]
      constructor
      · exact Or.inl
      · rintro (hv | rfl)
        · exact hv
        · exact hmem
    · simp only [addTagLevel, hd, if_neg hmem, levelList, dget?_dset_self,
        Option.getD_some, List.mem_append, List.mem_singleton]

/-- The level step keeps level lists duplicate-free. -/
theorem nodup_levelList_addTagLevel (parts : List String) (d : TagDict)
    (level j : Nat) (hl : level < 4) (hj : j < 4)
    (h : (levelList d j).Nodup) :
    (levelList (addTagLevel parts d level) j).Nodup := by
  by_cases hne : j = level
  · subst hne
    cases hd : dget? d (levelKey j) with
    | none => simp [addTagLevel, levelList, hd, dget?_dset_self]
    | some vs =>
      by_cases hmem : joinSep " > " (parts.take (j + 2)) ∈ vs
      · simpa [addTagLevel, hd, hmem, levelList] using h
      · simp only [addTagLevel, hd, if_neg hmem, levelList, dget?_dset_self,
          Option.getD_some]
        simp only [levelList, hd, Option.getD_some] at h
        exact h.append (List.nodup_singleton _)
          (by simpa [List.disjoint_singleton] using hmem)
  · rw [levelList_addTagLevel_ne parts d level j hl hj hne]
    exact h

/-- Keys the level step can write. -/
theorem mem_addTagLevel (parts : List String) (d : TagDict) (level : Nat)
    (kv : String × List String) (h : kv ∈ addTagLevel parts d level) :
    kv.1 = levelKey level ∨ kv ∈ d := by
  cases hd : dget? d (levelKey level) with
  | none =>
    rw [addTagLevel, hd] at h
    rcases mem_dset _ _ _ _ h with h1 | h1
    · exact Or.inl (by rw [h1])
    · exact Or.inr h1
  | some vs =>
    rw [addTagLevel, hd] at h
    dsimp only at h
    by_cases hmem : joinSep " > " (parts.take (level + 2)) ∈ vs
    · rw [if_pos hmem] at h
      exact Or.inr h
    · rw [if_neg hmem] at h
      rcases mem_dset _ _ _ _ h with h1 | h1
      · exact Or.inl (by rw [h1])
      · exact Or.inr h1

/-- The taxonomy step leaves every level list unchanged. -/
theorem levelList_addTaxonomyName (d : TagDict) (name : String) (k : Nat)
    (hk : k < 4) :
    levelList (addTaxonomyName d name) k = levelList d k := by
  have hkey : levelKey k ≠ "taxonomy" := levelKey_ne_taxonomy k hk
  by_cases hmem : name ∈ (dget? d "taxonomy").getD []
  · simp [addTaxonomyName, hmem]
  · simp [addTaxonomyName, hmem, levelList, dget?_dset_ne _ _ _ _ hkey]

/-- Keys the taxonomy step can write. -/
theorem mem_addTaxonomyName (d : TagDict) (name : String)
    (kv : String × List String) (h : kv ∈ addTaxonomyName d name) :
    kv.1 = "taxonomy" ∨ kv ∈ d := by
  by_cases hmem : name ∈ (dget? d "taxonomy").getD []
  · rw [addTaxonomyName] at h
    simp only [if_pos hmem] at h
    exact Or.inr h
  · rw [addTaxonomyName] at h
    simp only [if_neg hmem] at h
    rcases mem_dset _ _ _ _ h with h1 | h1
    · exact Or.inl (by rw [h1])
    · exact Or.inr h1

end SearchDocs

namespace SearchDocs

/-- Values already present in a level list survive the level loop. -/
theorem mem_levelList_addTagLevelsFrom_mono (parts : List String)
    (levels : List Nat) (hlt : ∀ l ∈ levels, l < 4) (d : TagDict)
    (j : Nat) (hj : j < 4) (v : String) (hv : v ∈ levelList d j) :
    v ∈ levelList (addTagLevelsFrom parts d levels) j := by
  induction levels generalizing d with
  | nil => exact hv
  | cons level rest ih =>
    have hl : level < 4 := hlt level (List.mem_cons_self _ _)
    have hrest : ∀ l ∈ rest, l < 4 := fun l hl2 =>
      hlt l (List.mem_cons_of_mem _ hl2)
    have hstep : v ∈ levelList (addTagLevel parts d level) j := by
      by_cases hne : j = level
      · subst hne
        exact (mem_levelList_addTagLevel_self parts d j v).mpr (Or.inl hv)
      · rw [levelList_addTagLevel_ne parts d level j hl hj hne]
        exact hv
    simp only [addTagLevelsFrom]
    by_cases hbreak : parts.length == level + 2
    · rw [if_pos hbreak]
      exact hstep
    · rw [if_neg hbreak]
      exact ih hrest _ hstep

/-- A tag with enough parts deposits its value at each level it
reaches. -/
theorem mem_levelList_addTagLevelsFrom_complete (parts : List String)
    (levels : List Nat) (hsort : levels.Pairwise (· < ·))
    (hlt : ∀ l ∈ levels, l < 4) (d : TagDict) (k : Nat) (hk : k ∈ levels)
    (hlen : k + 2 ≤ parts.length) :
    joinSep " > " (parts.take (k + 2)) ∈
      levelList (addTagLevelsFrom parts d levels) k := by
  induction levels generalizing d with
  | nil => cases hk
  | cons level rest ih =>
    have hl : level < 4 := hlt level (List.mem_cons_self _ _)
    have hrest : ∀ l ∈ rest, l < 4 := fun l hl2 =>
      hlt l (List.mem_cons_of_mem _ hl2)
    have hk4 : k < 4 := hlt k hk
    rcases List.mem_cons.mp hk with rfl | hkrest
    · have hstep : joinSep " > " (parts.take (k + 2)) ∈
          levelList (addTagLevel parts d k) k :=
        (mem_levelList_addTagLevel_self parts d k _).mpr (Or.inr rfl)
      simp only [addTagLevelsFrom]
      by_cases hbreak : parts.length == k + 2
      · rw [if_pos hbreak]
        exact hstep
      · rw [if_neg hbreak]
        exact mem_levelList_addTagLevelsFrom_mono parts rest hrest _ k hk4 _ hstep
    · have hlevelk : level < k :=
        (List.pairwise_cons.mp hsort).1 k hkrest
      have hnobreak : (parts.length == level + 2) = false := by
        simp only [beq_eq_false_iff_ne, ne_eq]
        omega
      simp only [addTagLevelsFrom, hnobreak, if_false, Bool.false_eq_true]
      exact ih (List.pairwise_cons.mp hsort).2 hrest _ hkrest

/-- Values in a level list after the level loop: already present, or the
tag's value at that level, with the level reached before any break. -/
theorem mem_levelList_addTagLevelsFrom_sound (parts : List String)
    (levels : List Nat) (hsort : levels.Pairwise (· < ·))
    (hlt : ∀ l ∈ levels, l < 4) (d : TagDict) (k : Nat) (hk : k < 4)
    (v : String)
    (hv : v ∈ levelList (addTagLevelsFrom parts d levels) k) :
    v ∈ levelList d k ∨
      (v = joinSep " > " (parts.take (k + 2)) ∧ k ∈ levels ∧
        ∀ j ∈ levels, parts.length = j + 2 → k ≤ j) := by
  induction levels generalizing d with
  | nil => exact Or.inl hv
  | cons level rest ih =>
    have hl : level < 4 := hlt level (List.mem_cons_self _ _)
    have hrest : ∀ l ∈ rest, l < 4 := fun l hl2 =>
      hlt l (List.mem_cons_of_mem _ hl2)
    have hpair := List.pairwise_cons.mp hsort
    have hfromstep :
        v ∈ levelList (addTagLevel parts d level) k →
        v ∈ levelList d k ∨ (v = joinSep " > " (parts.take (k + 2)) ∧ k = level) := by
      intro hstep
      by_cases hne : k = level
      · subst hne
        rcases (mem_levelList_addTagLevel_self parts d k v).mp hstep with h1 | h1
        · exact Or.inl h1
        · exact Or.inr ⟨h1, rfl⟩
      · rw [levelList_addTagLevel_ne parts d level k hl hk hne] at hstep
        exact Or.inl hstep
    simp only [addTagLevelsFrom] at hv
    by_cases hbreak : parts.length == level + 2
    · rw [if_pos hbreak] at hv
      have hlen : parts.length = level + 2 := by
        exact beq_iff_eq.mp hbreak
      rcases hfromstep hv with h1 | ⟨h1, rfl⟩
      · exact Or.inl h1
      · refine Or.inr ⟨h1, List.mem_cons_self _ _, ?_⟩
        intro j hj hjlen
        rcases List.mem_cons.mp hj with rfl | hjrest
        · exact le_refl _
        · have := hpair.1 j hjrest
          omega
    · rw [if_neg hbreak] at hv
      have hnolen : parts.length ≠ level + 2 := by
        simpa using hbreak
      rcases ih hpair.2 hrest _ hv with h1 | ⟨h1, hk2, hcond⟩
      · rcases hfromstep h1 with h2 | ⟨h2, rfl⟩
        · exact Or.inl h2
        · refine Or.inr ⟨h2, List.mem_cons_self _ _, ?_⟩
          intro j hj hjlen
          rcases List.mem_cons.mp hj with rfl | hjrest
          · exact le_refl _
          · have := hpair.1 j hjrest
            omega
      · refine Or.inr ⟨h1, List.mem_cons_of_mem _ hk2, ?_⟩
        intro j hj hjlen
        rcases List.mem_cons.mp hj with rfl | hjrest
        · exact absurd hjlen hnolen
        · exact hcond j hjrest hjlen

/-- The level loop keeps level lists duplicate-free. -/
theorem nodup_levelList_addTagLevelsFrom (parts : List String)
    (levels : List Nat) (hlt : ∀ l ∈ levels, l < 4) (d : TagDict)
    (j : Nat) (hj : j < 4) (h : (levelList d j).Nodup) :
    (levelList (addTagLevelsFrom parts d levels) j).Nodup := by
  induction levels generalizing d with
  | nil => exact h
  | cons level rest ih =>
    have hl : level < 4 := hlt level (List.mem_cons_self _ _)
    have hrest : ∀ l ∈ rest, l < 4 := fun l hl2 =>
      hlt l (List.mem_cons_of_mem _ hl2)
    have hstep := nodup_levelList_addTagLevel parts d level j hl hj h
    simp only [addTagLevelsFrom]
    by_cases hbreak : parts.length == level + 2
    · rw [if_pos hbreak]
      exact hstep
    · rw [if_neg hbreak]
      exact ih hrest _ hstep

/-- Keys the level loop can write. -/
theorem mem_addTagLevelsFrom (parts : List String) (levels : List Nat)
    (d : TagDict) (kv : String × List String)
    (h : kv ∈ addTagLevelsFrom parts d levels) :
    (∃ l ∈ levels, kv.1 = levelKey l) ∨ kv ∈ d := by
  induction levels generalizing d with
  | nil => exact Or.inr h
  | cons level rest ih =>
    simp only [addTagLevelsFrom] at h
    by_cases hbreak : parts.length == level + 2
    · rw [if_pos hbreak] at h
      rcases mem_addTagLevel parts d level kv h with h1 | h1
      · exact Or.inl ⟨level, List.mem_cons_self _ _, h1⟩
      · exact Or.inr h1
    · rw [if_neg hbreak] at h
      rcases ih _ h with ⟨l, hl, h1⟩ | h1
      · exact Or.inl ⟨l, List.mem_cons_of_mem _ hl, h1⟩
      · rcases mem_addTagLevel parts d level kv h1 with h2 | h2
        · exact Or.inl ⟨level, List.mem_cons_self _ _, h2⟩
        · exact Or.inr h2

end SearchDocs

namespace SearchDocs

/-- A tag's parts list is one longer than its lineage. -/
theorem tagParts_length (tag : ObjTag) :
    (tagParts tag).length = tag.lineage.length + 1 := by
  simp [tagParts]

/-- Invariant of the tag loop after processing `processed`:
only the five allowed keys; duplicate-free level lists; every processed
tag's value present at each level its lineage reaches; every level-list
member produced by some processed tag that reached that level. -/
def TagsInv (processed : List ObjTag) (d : TagDict) : Prop :=
  (∀ kv ∈ d, kv.1 ∈ allowedTagKeys) ∧
  (∀ k, k < 4 → (levelList d k).Nodup) ∧
  (∀ t ∈ processed, ∀ k, k < 4 → k + 2 ≤ (tagParts t).length →
    tagLevelValue t k ∈ levelList d k) ∧
  (∀ k, k < 4 → ∀ v ∈ levelList d k,
    ∃ t ∈ processed, v = tagLevelValue t k ∧
      ((tagParts t).length ≤ 1 ∨ k + 2 ≤ (tagParts t).length))

/-- One iteration of the tag loop preserves the invariant. -/
theorem processTag_inv (processed : List ObjTag) (d : TagDict) (t : ObjTag)
    (h : TagsInv processed d) : TagsInv (processed ++ [t]) (processTag d t) := by
  obtain ⟨hkeys, hnodup, hcomp, hsound⟩ := h
  have hsort : ([0, 1, 2, 3] : List Nat).Pairwise (· < ·) := by decide
  have hlt : ∀ l ∈ ([0, 1, 2, 3] : List Nat), l < 4 := by decide
  refine ⟨?_, ?_, ?_, ?_⟩
  · intro kv hkv
    rcases mem_addTagLevelsFrom _ _ _ _ hkv with ⟨l, hl, h1⟩ | h1
    · rw [h1]
      fin_cases hl <;> decide
    · rcases mem_addTaxonomyName _ _ _ h1 with h2 | h2
      · rw [h2]
        decide
      · exact hkeys kv h2
  · intro k hk
    refine nodup_levelList_addTagLevelsFrom _ _ hlt _ k hk ?_
    rw [levelList_addTaxonomyName d t.taxonomyName k hk]
    exact hnodup k hk
  · intro t2 ht2 k hk hlen
    rcases List.mem_append.mp ht2 with ht2 | ht2
    · refine mem_levelList_addTagLevelsFrom_mono _ _ hlt _ k hk _ ?_
      rw [levelList_addTaxonomyName d t.taxonomyName k hk]
      exact hcomp t2 ht2 k hk hlen
    · have ht2e : t2 = t := by simpa using ht2
      subst ht2e
      have hkmem : k ∈ ([0, 1, 2, 3] : List Nat) := by
        interval_cases k <;> decide
      exact mem_levelList_addTagLevelsFrom_complete _ _ hsort hlt _ k hkmem hlen
  · intro k hk v hv
    rcases mem_levelList_addTagLevelsFrom_sound _ _ hsort hlt _ k hk v hv
      with h1 | ⟨h1, _, hcond⟩
    · rw [levelList_addTaxonomyName d t.taxonomyName k hk] at h1
      rcases hsound k hk v h1 with ⟨t2, ht2, hval, hlen⟩
      exact ⟨t2, List.mem_append.mpr (Or.inl ht2), hval, hlen⟩
    · refine ⟨t, List.mem_append.mpr (Or.inr (List.mem_cons_self _ _)), h1, ?_⟩
      by_cases hle : (tagParts t).length ≤ 1
      · exact Or.inl hle
      · by_cases hge : k + 2 ≤ (tagParts t).length
        · exact Or.inr hge
        · exfalso
          have h2 : 2 ≤ (tagParts t).length := by omega
          have h3 : (tagParts t).length - 2 < k := by omega
          have hjmem : (tagParts t).length - 2 ∈ ([0, 1, 2, 3] : List Nat) := by
            have : (tagParts t).length - 2 < 4 := by omega
            interval_cases h : ((tagParts t).length - 2) <;> decide
          have := hcond ((tagParts t).length - 2) hjmem (by omega)
          omega

/-- The whole tag loop preserves the invariant. -/
theorem foldl_processTag_inv (rest processed : List ObjTag) (d : TagDict)
    (h : TagsInv processed d) :
    TagsInv (processed ++ rest) (rest.foldl processTag d) := by
  induction rest generalizing processed d with
  | nil => simpa using h
  | cons t rest2 ih =>
    have h1 := processTag_inv processed d t h
    have h2 := ih (processed ++ [t]) _ h1
    simpa [List.append_assoc] using h2

/-- The invariant holds of the initial dict. -/
theorem tagsInv_init : TagsInv [] [("taxonomy", []), ("level0", [])] := by
  refine ⟨by decide, ?_, by simp, ?_⟩
  · intro k hk
    have hempty : levelList [("taxonomy", []), ("level0", [])] k = [] := by
      interval_cases k <;> decide
    rw [hempty]
    exact List.nodup_nil
  · intro k hk v hv
    have hempty : levelList [("taxonomy", []), ("level0", [])] k = [] := by
      interval_cases k <;> decide
    rw [hempty] at hv
    cases hv

end SearchDocs

/-- C6: the tags dict built by `_tags_for_content_object` carries only the
fields `taxonomy` and `level0`–`level3` (no deeper level, whatever the tag
depth); for each tag the entry at level K is the `" > "`-join of the
taxonomy name and the first K+1 lineage parts, each part's `" > "`
occurrences escaped to `" _ "`; every level-list member arises from some
tag that way; each level list is duplicate-free; and an object with no
tags yields an empty dict. -/
theorem C6_tags_for_content_object (all_tags : List SearchDocs.ObjTag) :
    (∀ kv ∈ SearchDocs._tags_for_content_object all_tags,
      kv.1 ∈ SearchDocs.allowedTagKeys) ∧
    (∀ tag ∈ all_tags, ∀ k, k < 4 → k + 1 ≤ tag.lineage.length →
      SearchDocs.tagLevelValue tag k ∈
        SearchDocs.levelList (SearchDocs._tags_for_content_object all_tags) k) ∧
    ((∀ tag ∈ all_tags, tag.lineage ≠ []) →
      ∀ k, k < 4 →
        ∀ v ∈ SearchDocs.levelList
            (SearchDocs._tags_for_content_object all_tags) k,
          ∃ tag ∈ all_tags, k + 1 ≤ tag.lineage.length ∧
            v = SearchDocs.tagLevelValue tag k) ∧
    (∀ k, k < 4 →
      (SearchDocs.levelList
        (SearchDocs._tags_for_content_object all_tags) k).Nodup) ∧
    (all_tags = [] → SearchDocs._tags_for_content_object all_tags = []) := by
  cases all_tags with
  | nil =>
    refine ⟨by simp [SearchDocs._tags_for_content_object], by simp, ?_, ?_, fun _ => rfl⟩
    · intro _ k _ v hv
      simp [SearchDocs._tags_for_content_object, SearchDocs.levelList,
        SearchDocs.dget?] at hv
    · intro k _
      simp [SearchDocs._tags_for_content_object, SearchDocs.levelList,
        SearchDocs.dget?]
  | cons t0 rest =>
    have hinv := SearchDocs.foldl_processTag_inv (t0 :: rest) [] _
      SearchDocs.tagsInv_init
    rw [List.nil_append] at hinv
    obtain ⟨hkeys, hnodup, hcomp, hsound⟩ := hinv
    have hfold : SearchDocs._tags_for_content_object (t0 :: rest) =
        (t0 :: rest).foldl SearchDocs.processTag
          [("taxonomy", []), ("level0", [])] := rfl
    refine ⟨?_, ?_, ?_, ?_, by simp⟩
    · intro kv hkv
      rw [hfold] at hkv
      exact hkeys kv hkv
    · intro tag htag k hk hlen
      rw [hfold]
      refine hcomp tag htag k hk ?_
      rw [SearchDocs.tagParts_length]
      omega
    · intro hnonempty k hk v hv
      rw [hfold] at hv
      rcases hsound k hk v hv with ⟨tag, htag, hval, hdisj⟩
      refine ⟨tag, htag, ?_, hval⟩
      rcases hdisj with h1 | h1
      · exfalso
        have := hnonempty tag htag
        rw [SearchDocs.tagParts_length] at h1
        have : tag.lineage.length = 0 := by omega
        exact (hnonempty tag htag) (List.eq_nil_of_length_eq_zero this)
      · rw [SearchDocs.tagParts_length] at h1
        omega
    · intro k hk
      rw [hfold]
      exact hnodup k hk

namespace WasmHelper

/-!
## `json_safe` (`openedx-wasm/untrusted_code/wasm_helper.py`)

A Python value is modelled by `PyVal`.  Floats are modelled as finite
rationals: `json.dumps`/`json.loads` round-trip finite doubles exactly
(`repr` shortest round-trip), while the non-finite floats (NaN, which is
unequal to itself) are outside the model.  CPython's decimal rendering of
a float used when a float is a dict key is modelled by the rational's
`toString` (the claims do not depend on the rendering).  A `vobj` is any
object of a type outside `json_safe`'s `ok_types`.
-/

/-- A Python value, as `json_safe` distinguishes them. -/
inductive PyVal where
  /-- `None` -/
  | vnone
  /-- `bool` (which `isinstance(…, int)` accepts) -/
  | vbool (b : Bool)
  | vint (n : Int)
  /-- a finite `float` -/
  | vfloat (q : Rat)
  | vstr (s : String)
  /-- `bytes`, by its byte values -/
  | vbytes (bs : List Nat)
  | vlist (xs : List PyVal)
  | vtuple (xs : List PyVal)
  /-- a `dict`, by its insertion-ordered entries -/
  | vdict (entries : List (PyVal × PyVal))
  /-- any object whose type is not in `ok_types` -/
  | vobj (id : Nat)
  deriving Repr

/-- `isinstance(v, ok_types)` for
`ok_types = (type(None), int, float, bytes, str, list, tuple, dict)`. -/
def ok_type : PyVal → Bool
  | .vobj _ => false
  | _ => true

/-- A UTF-8 continuation byte. -/
def isCont (b : Nat) : Bool := 0x80 ≤ b && b ≤ 0xBF

/-- Strict UTF-8 decoding (`bytes.decode('utf-8')`): rejects truncated
sequences, overlong encodings, surrogates and values above `U+10FFFF`;
`none` models the `UnicodeDecodeError` that `decode_object` raises. -/
def utf8Decode : List Nat → Option (List Char)
  | [] => some []
  | b :: rest =>
    if b < 0x80 then
      (utf8Decode rest).map (fun cs => Char.ofNat b :: cs)
    else if 0xC2 ≤ b && b ≤ 0xDF then
      match rest with
      | c1 :: rest2 =>
        if isCont c1 then
          (utf8Decode rest2).map
            (fun cs => Char.ofNat ((b - 0xC0) * 64 + (c1 - 0x80)) :: cs)
        else none
      | [] => none
    else if 0xE0 ≤ b && b ≤ 0xEF then
      match rest with
      | c1 :: c2 :: rest2 =>
        if ((if b = 0xE0 then 0xA0 else 0x80) ≤ c1
              && c1 ≤ (if b = 0xED then 0x9F else 0xBF)) && isCont c2 then
          (utf8Decode rest2).map
            (fun cs =>
              Char.ofNat ((b - 0xE0) * 4096 + (c1 - 0x80) * 64 + (c2 - 0x80)) :: cs)
        else none
      | _ => none
    else if 0xF0 ≤ b && b ≤ 0xF4 then
      match rest with
      | c1 :: c2 :: c3 :: rest2 =>
        if ((if b = 0xF0 then 0x90 else 0x80) ≤ c1
              && c1 ≤ (if b = 0xF4 then 0x8F else 0xBF))
            && isCont c2 && isCont c3 then
          (utf8Decode rest2).map
            (fun cs =>
              Char.ofNat ((b - 0xF0) * 262144 + (c1 - 0x80) * 4096
                + (c2 - 0x80) * 64 + (c3 - 0x80)) :: cs)
        else none
      | _ => none
    else none

/-- The numeric value of a Python number (`bool`, `int` or finite
`float`), under Python's cross-type `==`. -/
def toRat? : PyVal → Option Rat
  | .vbool b => some (if b then 1 else 0)
  | .vint n => some (n : Rat)
  | .vfloat q => some q
  | _ => none

/-- Python `==` on the hashable scalar values that can reach a dict
assignment here: numbers compare by value across `bool`/`int`/`float`,
strings and bytes by content, `None` only to itself. -/
def keyEq (a b : PyVal) : Bool :=
  match toRat? a, toRat? b with
  | some x, some y => x == y
  | _, _ =>
    match a, b with
    | .vnone, .vnone => true
    | .vstr s, .vstr t => s == t
    | .vbytes s, .vbytes t => s == t
    | _, _ => false

/-- Whether `d[k] = v` accepts the key (`list`/`dict` keys raise
`TypeError: unhashable type`; the containers produced by `decode_object`
and `json.loads` never contain tuples, so tuple hashability does not
arise). -/
def hashableKey : PyVal → Bool
  | .vlist _ => false
  | .vdict _ => false
  | _ => true

/-- `d[k] = v` on an existing dict: update the value in place at the
first `==`-equal key (the original key object is kept), else append. -/
def dsetPy : List (PyVal × PyVal) → PyVal → PyVal → List (PyVal × PyVal)
  | [], k, v => [(k, v)]
  | (k', v') :: rest, k, v =>
    if keyEq k' k then (k', v) :: rest else (k', v') :: dsetPy rest k v

/-- `d[k] = v`, raising on an unhashable key. -/
def pyDictSet (d : List (PyVal × PyVal)) (k v : PyVal) :
    Except Unit (List (PyVal × PyVal)) :=
  if hashableKey k then .ok (dsetPy d k v) else .error ()

mutual

/-- `decode_object(obj)`: decode byte strings as UTF-8 (raising on
invalid UTF-8), convert lists and tuples to lists and dicts to dicts
element-wise, return everything else unchanged. -/
def decode_object : PyVal → Except Unit PyVal
  | .vbytes bs =>
    match utf8Decode bs with
    | some cs => .ok (.vstr ⟨cs⟩)
    | none => .error ()
  | .vlist xs =>
    match decodeList xs with
    | .ok ys => .ok (.vlist ys)
    | .error e => .error e
  | .vtuple xs =>
    match decodeList xs with
    | .ok ys => .ok (.vlist ys)
    | .error e => .error e
  | .vdict es =>
    match decodeEntries es [] with
    | .ok es2 => .ok (.vdict es2)
    | .error e => .error e
  | v => .ok v

/-- Element-wise decoding of a list (`new_list`). -/
def decodeList : List PyVal → Except Unit (List PyVal)
  | [] => .ok []
  | x :: xs =>
    match decode_object x with
    | .error e => .error e
    | .ok y =>
      match decodeList xs with
      | .error e => .error e
      | .ok ys => .ok (y :: ys)

/-- Entry-wise decoding of a dict into `new_dict` (decoded keys that
collide under `==` overwrite; an unhashable decoded key raises). -/
def decodeEntries :
    List (PyVal × PyVal) → List (PyVal × PyVal) →
      Except Unit (List (PyVal × PyVal))
  | [], acc => .ok acc
  | (k, v) :: es, acc =>
    match decode_object k with
    | .error e => .error e
    | .ok k2 =>
      match decode_object v with
      | .error e => .error e
      | .ok v2 =>
        match pyDictSet acc k2 v2 with
        | .error e => .error e
        | .ok acc2 => decodeEntries es acc2

end

/-- The string `json.dumps` writes for a dict key (`skipkeys=False`:
other key types raise `TypeError`). -/
def jsonKeyString : PyVal → Except Unit String
  | .vstr s => .ok s
  | .vbool b => .ok (if b then "true" else "false")
  | .vnone => .ok "null"
  | .vint n => .ok (toString n)
  | .vfloat q => .ok (toString q)
  | _ => .error ()

/-- Rebuilding a parsed JSON object: `obj[k] = v` with string keys
(later value wins, the first occurrence's position is kept). -/
def jset : List (String × PyVal) → String → PyVal → List (String × PyVal)
  | [], k, v => [(k, v)]
  | (k', v') :: rest, k, v =>
    if k' = k then (k', v) :: rest else (k', v') :: jset rest k v

mutual

/-- `json.loads(json.dumps(x))`: the canonicalisation JSON
serialisation performs — tuples become arrays, dict keys become strings
(colliding stringified keys collapse, later value winning), `bytes` and
non-`ok_types` objects raise `TypeError`; scalars round-trip. -/
def jsonRound : PyVal → Except Unit PyVal
  | .vnone => .ok .vnone
  | .vbool b => .ok (.vbool b)
  | .vint n => .ok (.vint n)
  | .vfloat q => .ok (.vfloat q)
  | .vstr s => .ok (.vstr s)
  | .vbytes _ => .error ()
  | .vlist xs =>
    match jsonRoundList xs with
    | .ok ys => .ok (.vlist ys)
    | .error e => .error e
  | .vtuple xs =>
    match jsonRoundList xs with
    | .ok ys => .ok (.vlist ys)
    | .error e => .error e
  | .vdict es =>
    match jsonRoundEntries es with
    | .error e => .error e
    | .ok pairs =>
      .ok (.vdict ((pairs.foldl (fun acc kv => jset acc kv.1 kv.2) []).map
        (fun kv => (.vstr kv.1, kv.2))))
  | .vobj _ => .error ()

/-- Element-wise serialisation round-trip of an array. -/
def jsonRoundList : List PyVal → Except Unit (List PyVal)
  | [] => .ok []
  | x :: xs =>
    match jsonRound x with
    | .error e => .error e
    | .ok y =>
      match jsonRoundList xs with
      | .error e => .error e
      | .ok ys => .ok (y :: ys)

/-- Serialisation round-trip of a dict's entries: stringified keys and
round-tripped values, in writing order (before the rebuild collapses
duplicates). -/
def jsonRoundEntries :
    List (PyVal × PyVal) → Except Unit (List (String × PyVal))
  | [] => .ok []
  | (k, v) :: es =>
    match jsonKeyString k with
    | .error e => .error e
    | .ok ks =>
      match jsonRound v with
      | .error e => .error e
      | .ok v2 =>
        match jsonRoundEntries es with
        | .error e => .error e
        | .ok pairs => .ok ((ks, v2) :: pairs)

end

/-- Python `k == '__builtins__'` (`k in bad_keys`). -/
def pyEqStr : PyVal → String → Bool
  | .vstr s, t => s == t
  | _, _ => false

/-- The `try` block of the loop body:
`v = json.loads(json.dumps(decode_object(v)))` then
`k = json.loads(json.dumps(decode_object(k)))`; any exception is caught
by the `except` and skips the entry. -/
def tryEntry (k v : PyVal) : Except Unit (PyVal × PyVal) :=
  match decode_object v with
  | .error e => .error e
  | .ok dv =>
    match jsonRound dv with
    | .error e => .error e
    | .ok v2 =>
      match decode_object k with
      | .error e => .error e
      | .ok dk =>
        match jsonRound dk with
        | .error e => .error e
        | .ok k2 => .ok (k2, v2)

/-- The `for k, v in d.items()` loop of `json_safe`, building `jd`:
skip values outside `ok_types` and the top-level key `'__builtins__'`;
decode and JSON-round-trip the value and then the key, skipping the
entry when either raises; then `jd[k] = v` (an unhashable round-tripped
key raises out of the function). -/
def buildJd :
    List (PyVal × PyVal) → List (PyVal × PyVal) →
      Except Unit (List (PyVal × PyVal))
  | [], jd => .ok jd
  | (k, v) :: rest, jd =>
    if ok_type v = false then buildJd rest jd
    else if pyEqStr k "__builtins__" then buildJd rest jd
    else
      match tryEntry k v with
      | .error _ => buildJd rest jd
      | .ok (k2, v2) =>
        match pyDictSet jd k2 v2 with
        | .error e => .error e
        | .ok jd2 => buildJd rest jd2

/-- `json_safe(d)`: build `jd` and return
`json.loads(json.dumps(jd))`. -/
def json_safe (d : List (PyVal × PyVal)) :
    Except Unit (List (PyVal × PyVal)) :=
  match buildJd d [] with
  | .error e => .error e
  | .ok jd =>
    match jsonRound (.vdict jd) with
    | .ok (.vdict res) => .ok res
    | _ => .error ()

end WasmHelper

/-- A non-serialisable value is dropped. -/
theorem json_safe_drops_example :
    WasmHelper.json_safe [(.vstr "a", .vint 1), (.vstr "b", .vobj 0)] =
      .ok [(.vstr "a", .vint 1)] := rfl

/-- The top-level `'__builtins__'` string key is filtered. -/
theorem json_safe_builtins_example :
    WasmHelper.json_safe [(.vstr "__builtins__", .vint 1)] = .ok [] := rfl

/-- Tuples become lists and valid UTF-8 bytes become strings. -/
theorem json_safe_tuple_bytes_example :
    WasmHelper.json_safe [(.vstr "t", .vtuple [.vint 1, .vbytes [65]])] =
      .ok [(.vstr "t", .vlist [.vint 1, .vstr "A"])] := rfl

/-- An integer key is stringified by the final JSON round-trip. -/
theorem json_safe_int_key_example :
    WasmHelper.json_safe [(.vint 1, .vstr "x")] =
      .ok [(.vstr "1", .vstr "x")] := rfl

namespace WasmHelper

/-- A canonical JSON value: what `json.loads` can produce — scalars,
arrays of canonical values, and objects with distinct string keys and
canonical values. -/
inductive Canon : PyVal → Prop where
  | vnone : Canon .vnone
  | vbool (b : Bool) : Canon (.vbool b)
  | vint (n : Int) : Canon (.vint n)
  | vfloat (q : Rat) : Canon (.vfloat q)
  | vstr (s : String) : Canon (.vstr s)
  | vlist (xs : List PyVal) : (∀ x ∈ xs, Canon x) → Canon (.vlist xs)
  | vdict (es : List (PyVal × PyVal)) :
      (∀ kv ∈ es, ∃ s : String, kv.1 = .vstr s) →
      (∀ kv ∈ es, Canon kv.2) →
      (es.map Prod.fst).Nodup →
      Canon (.vdict es)

/-- Canonical values are of allowed types. -/
theorem Canon.ok_type_eq {v : PyVal} (h : Canon v) : ok_type v = true := by
  cases h <;> rfl

/-- `jset` on an absent key appends. -/
theorem jset_eq_append (acc : List (String × PyVal)) (k : String) (v : PyVal)
    (h : k ∉ acc.map Prod.fst) : jset acc k v = acc ++ [(k, v)] := by
  induction acc with
  | nil => rfl
  | cons kv rest ih =>
    obtain ⟨k', v'⟩ := kv
    simp only [List.map_cons, List.mem_cons] at h
    push_neg at h
    have hne : ¬(k' = k) := fun hEq => h.1 hEq.symm
    simp only [jset, if_neg hne, List.cons_append]
    rw [ih h.2]

/-- Folding `jset` over entries with fresh, distinct keys appends them. -/
theorem foldl_jset_eq_append (pairs : List (String × PyVal)) :
    ∀ acc : List (String × PyVal),
      (pairs.map Prod.fst).Nodup →
      (∀ k ∈ pairs.map Prod.fst, k ∉ acc.map Prod.fst) →
      pairs.foldl (fun a kv => jset a kv.1 kv.2) acc = acc ++ pairs := by
  induction pairs with
  | nil => simp
  | cons kv rest ih =>
    obtain ⟨k, v⟩ := kv
    intro acc hnodup hdisj
    simp only [List.map_cons, List.nodup_cons] at hnodup
    have hk : k ∉ acc.map Prod.fst :=
      hdisj k (by simp)
    simp only [List.foldl_cons]
    rw [jset_eq_append acc k v hk]
    rw [ih (acc ++ [(k, v)]) hnodup.2 ?_]
    · simp
    · intro k2 hk2
      simp only [List.map_append, List.mem_append, List.map_cons,
        List.map_nil, List.mem_singleton]
      push_neg
      constructor
      · exact hdisj k2 (by simp [hk2])
      · intro hEq
        subst hEq
        exact hnodup.1 hk2
/-- A value in a `jset`-updated dict is an old one or the written one. -/
theorem mem_jset (acc : List (String × PyVal)) (k : String) (v : PyVal)
    (kv : String × PyVal) (h : kv ∈ jset acc k v) :
    kv ∈ acc ∨ kv.2 = v := by
  induction acc with
  | nil =>
    simp only [jset, List.mem_singleton] at h
    exact Or.inr (by rw [h])
  | cons kv' rest ih =>
    obtain ⟨k', v'⟩ := kv'
    by_cases hk : k' = k
    · simp only [jset, if_pos hk, List.mem_cons] at h
      rcases h with h1 | h1
      · exact Or.inr (by rw [h1])
      · exact Or.inl (List.mem_cons_of_mem _ h1)
    · simp only [jset, if_neg hk, List.mem_cons] at h
      rcases h with h1 | h1
      · exact Or.inl (by simp [h1])
      · rcases ih h1 with h2 | h2
        · exact Or.inl (List.mem_cons_of_mem _ h2)
        · exact Or.inr h2

/-- A value in a `jset`-fold is from the accumulator or from the
entries. -/
theorem mem_foldl_jset (pairs : List (String × PyVal)) :
    ∀ (acc : List (String × PyVal)) (kv : String × PyVal),
      kv ∈ pairs.foldl (fun a p => jset a p.1 p.2) acc →
      kv ∈ acc ∨ ∃ p ∈ pairs, kv.2 = p.2 := by
  induction pairs with
  | nil => simp
  | cons p rest ih =>
    intro acc kv h
    simp only [List.foldl_cons] at h
    rcases ih _ kv h with h1 | ⟨p2, hp2, h2⟩
    · rcases mem_jset _ _ _ _ h1 with h2 | h2
      · exact Or.inl h2
      · exact Or.inr ⟨p, List.mem_cons_self _ _, h2⟩
    · exact Or.inr ⟨p2, List.mem_cons_of_mem _ hp2, h2⟩

/-- The keys after a `jset` update. -/
theorem jset_keys (acc : List (String × PyVal)) (k : String) (v : PyVal) :
    (jset acc k v).map Prod.fst = acc.map Prod.fst ∨
      (jset acc k v).map Prod.fst = acc.map Prod.fst ++ [k] := by
  induction acc with
  | nil => simp [jset]
  | cons kv rest ih =>
    obtain ⟨k', v'⟩ := kv
    by_cases hk : k' = k
    · simp [jset, hk]
    · rcases ih with h | h <;> simp [jset, hk, h]

/-- `jset` keeps key lists duplicate-free. -/
theorem jset_keys_nodup (acc : List (String × PyVal)) (k : String)
    (v : PyVal) (h : (acc.map Prod.fst).Nodup) :
    ((jset acc k v).map Prod.fst).Nodup := by
  by_cases hk : k ∈ acc.map Prod.fst
  · induction acc with
    | nil => simp at hk
    | cons kv rest ih =>
      obtain ⟨k', v'⟩ := kv
      simp only [List.map_cons, List.nodup_cons] at h
      by_cases hkk : k' = k
      · simp only [jset, if_pos hkk, List.map_cons, List.nodup_cons]
        exact ⟨by simpa [hkk] using h.1, h.2⟩
      · simp only [List.map_cons, List.mem_cons] at hk
        rcases hk with hk | hk
        · exact absurd hk.symm hkk
        · simp only [jset, if_neg hkk, List.map_cons, List.nodup_cons]
          refine ⟨?_, ih h.2 hk⟩
          intro hmem
          rcases jset_keys rest k v with he | he
          · rw [he] at hmem
            exact h.1 hmem
          · rw [he] at hmem
            rcases List.mem_append.mp hmem with h2 | h2
            · exact h.1 h2
            · simp only [List.mem_singleton] at h2
              exact hkk h2
  · rw [jset_eq_append acc k v hk]
    simp only [List.map_append, List.map_cons, List.map_nil]
    rw [List.nodup_append]
    exact ⟨h, List.nodup_singleton _, by simpa [List.disjoint_singleton] using hk⟩

/-- Folding `jset` keeps key lists duplicate-free. -/
theorem foldl_jset_keys_nodup (pairs : List (String × PyVal)) :
    ∀ acc : List (String × PyVal), (acc.map Prod.fst).Nodup →
      ((pairs.foldl (fun a p => jset a p.1 p.2) acc).map Prod.fst).Nodup := by
  induction pairs with
  | nil => exact fun acc h => h
  | cons p rest ih =>
    intro acc h
    simp only [List.foldl_cons]
    exact ih _ (jset_keys_nodup acc p.1 p.2 h)

end WasmHelper

namespace WasmHelper

mutual

/-- Whatever the serialisation round-trip returns is canonical. -/
theorem canon_jsonRound : ∀ u w, jsonRound u = .ok w → Canon w
  | .vnone, w, h => by
    simp only [jsonRound, Except.ok.injEq] at h
    subst h
    exact Canon.vnone
  | .vbool b, w, h => by
    simp only [jsonRound, Except.ok.injEq] at h
    subst h
    exact Canon.vbool b
  | .vint n, w, h => by
    simp only [jsonRound, Except.ok.injEq] at h
    subst h
    exact Canon.vint n
  | .vfloat q, w, h => by
    simp only [jsonRound, Except.ok.injEq] at h
    subst h
    exact Canon.vfloat q
  | .vstr s, w, h => by
    simp only [jsonRound, Except.ok.injEq] at h
    subst h
    exact Canon.vstr s
  | .vbytes bs, w, h => by
    simp only [jsonRound] at h
    exact Except.noConfusion h
  | .vlist xs, w, h => by
    rw [jsonRound] at h
    cases hl : jsonRoundList xs with
    | error e => rw [hl] at h; cases h
    | ok ys =>
      rw [hl] at h
      simp only [Except.ok.injEq] at h
      subst h
      exact Canon.vlist ys (canon_jsonRoundList xs ys hl)
  | .vtuple xs, w, h => by
    rw [jsonRound] at h
    cases hl : jsonRoundList xs with
    | error e => rw [hl] at h; cases h
    | ok ys =>
      rw [hl] at h
      simp only [Except.ok.injEq] at h
      subst h
      exact Canon.vlist ys (canon_jsonRoundList xs ys hl)
  | .vdict es, w, h => by
    rw [jsonRound] at h
    cases he : jsonRoundEntries es with
    | error e => rw [he] at h; cases h
    | ok pairs =>
      rw [he] at h
      simp only [Except.ok.injEq] at h
      subst h
      refine Canon.vdict _ ?_ ?_ ?_
      · intro kv hkv
        rcases List.mem_map.mp hkv with ⟨kv2, _, rfl⟩
        exact ⟨kv2.1, rfl⟩
      · intro kv hkv
        rcases List.mem_map.mp hkv with ⟨kv2, hkv2, rfl⟩
        rcases mem_foldl_jset pairs [] kv2 hkv2 with h1 | ⟨p, hp, h2⟩
        · cases h1
        · have := canon_jsonRoundEntries es pairs he p hp
          rw [h2]
          exact this
      · have h1 : (((pairs.foldl (fun acc kv => jset acc kv.1 kv.2) []).map
            (fun kv => ((PyVal.vstr kv.1, kv.2) : PyVal × PyVal))).map Prod.fst) =
            ((pairs.foldl (fun acc kv => jset acc kv.1 kv.2) []).map
              Prod.fst).map PyVal.vstr := by
          simp [List.map_map]
        rw [h1]
        refine List.Nodup.map ?_ (foldl_jset_keys_nodup pairs [] (by simp))
        intro a b hab
        simpa using hab
  | .vobj i, w, h => by
    simp only [jsonRound] at h
    exact Except.noConfusion h

/-- Whatever the array round-trip returns is element-wise canonical. -/
theorem canon_jsonRoundList :
    ∀ xs ys, jsonRoundList xs = .ok ys → ∀ y ∈ ys, Canon y
  | [], ys, h => by
    simp only [jsonRoundList, Except.ok.injEq] at h
    subst h
    simp
  | x :: xs, ys, h => by
    rw [jsonRoundList] at h
    cases hx : jsonRound x with
    | error e => rw [hx] at h; cases h
    | ok y =>
      rw [hx] at h
      cases hxs : jsonRoundList xs with
      | error e => rw [hxs] at h; cases h
      | ok ys2 =>
        rw [hxs] at h
        simp only [Except.ok.injEq] at h
        subst h
        intro z hz
        rcases List.mem_cons.mp hz with rfl | hz2
        · exact canon_jsonRound x z hx
        · exact canon_jsonRoundList xs ys2 hxs z hz2

/-- Whatever the entries round-trip returns has canonical values. -/
theorem canon_jsonRoundEntries :
    ∀ es pairs, jsonRoundEntries es = .ok pairs → ∀ p ∈ pairs, Canon p.2
  | [], pairs, h => by
    simp only [jsonRoundEntries, Except.ok.injEq] at h
    subst h
    simp
  | (k, v) :: es, pairs, h => by
    rw [jsonRoundEntries] at h
    cases hk : jsonKeyString k with
    | error e => rw [hk] at h; cases h
    | ok ks =>
      rw [hk] at h
      cases hv : jsonRound v with
      | error e => rw [hv] at h; cases h
      | ok v2 =>
        rw [hv] at h
        cases hes : jsonRoundEntries es with
        | error e => rw [hes] at h; cases h
        | ok pairs2 =>
          rw [hes] at h
          simp only [Except.ok.injEq] at h
          subst h
          intro p hp
          rcases List.mem_cons.mp hp with h2 | hp2
          · rw [h2]
            exact canon_jsonRound v v2 hv
          · exact canon_jsonRoundEntries es pairs2 hes p hp2

end

end WasmHelper

namespace WasmHelper

/-- `keyEq` on two strings is string equality. -/
theorem keyEq_vstr (s t : String) :
    keyEq (.vstr s) (.vstr t) = (s == t) := rfl

/-- `dsetPy` on a key equal to no existing key appends. -/
theorem dsetPy_eq_append (acc : List (PyVal × PyVal)) (k v : PyVal)
    (h : ∀ kv ∈ acc, keyEq kv.1 k = false) :
    dsetPy acc k v = acc ++ [(k, v)] := by
  induction acc with
  | nil => rfl
  | cons kv rest ih =>
    obtain ⟨k', v'⟩ := kv
    have hk : keyEq k' k = false := h (k', v') (List.mem_cons_self _ _)
    simp only [dsetPy, hk, Bool.false_eq_true, if_false, List.cons_append]
    rw [ih (fun kv2 hkv2 => h kv2 (List.mem_cons_of_mem _ hkv2))]

/-- An entry after a `dsetPy` update: an untouched old entry, an old key
with the new value, or the appended pair. -/
theorem mem_dsetPy (acc : List (PyVal × PyVal)) (k v : PyVal)
    (kv : PyVal × PyVal) (h : kv ∈ dsetPy acc k v) :
    kv ∈ acc ∨ (∃ kv2 ∈ acc, kv.1 = kv2.1 ∧ kv.2 = v) ∨ kv = (k, v) := by
  induction acc with
  | nil =>
    simp only [dsetPy, List.mem_singleton] at h
    exact Or.inr (Or.inr h)
  | cons kv' rest ih =>
    obtain ⟨k', v'⟩ := kv'
    by_cases hk : keyEq k' k = true
    · simp only [dsetPy, hk, if_true, List.mem_cons] at h
      rcases h with h1 | h1
      · exact Or.inr (Or.inl ⟨(k', v'), List.mem_cons_self _ _, by simp [h1]⟩)
      · exact Or.inl (List.mem_cons_of_mem _ h1)
    · have hk' : keyEq k' k = false := by simpa using hk
      simp only [dsetPy, hk', Bool.false_eq_true, if_false, List.mem_cons] at h
      rcases h with h1 | h1
      · exact Or.inl (by simp [h1])
      · rcases ih h1 with h2 | h2 | h2
        · exact Or.inl (List.mem_cons_of_mem _ h2)
        · rcases h2 with ⟨kv2, hkv2, h3⟩
          exact Or.inr (Or.inl ⟨kv2, List.mem_cons_of_mem _ hkv2, h3⟩)
        · exact Or.inr (Or.inr h2)

/-- The keys after a `dsetPy` update: unchanged, or the new key
appended when no existing key matched. -/
theorem dsetPy_keys (acc : List (PyVal × PyVal)) (k v : PyVal) :
    (dsetPy acc k v).map Prod.fst = acc.map Prod.fst ∨
      ((dsetPy acc k v).map Prod.fst = acc.map Prod.fst ++ [k] ∧
        ∀ kv ∈ acc, keyEq kv.1 k = false) := by
  induction acc with
  | nil => simp [dsetPy]
  | cons kv rest ih =>
    obtain ⟨k', v'⟩ := kv
    by_cases hk : keyEq k' k = true
    · simp [dsetPy, hk]
    · have hk' : keyEq k' k = false := by simpa using hk
      rcases ih with h | ⟨h1, h2⟩
      · simp [dsetPy, hk', h]
      · right
        constructor
        · simp [dsetPy, hk', h1]
        · intro kv2 hkv2
          rcases List.mem_cons.mp hkv2 with h3 | h3
          · rw [h3]
            exact hk'
          · exact h2 kv2 h3

/-- Entry-wise list decoding is the identity when each element decodes
to itself. -/
theorem decodeList_id (xs : List PyVal)
    (h : ∀ x ∈ xs, decode_object x = .ok x) : decodeList xs = .ok xs := by
  induction xs with
  | nil => rfl
  | cons x rest ih =>
    rw [decodeList, h x (List.mem_cons_self _ _),
      ih (fun y hy => h y (List.mem_cons_of_mem _ hy))]

/-- Rebuilding a dict whose entries have distinct string keys and
self-decoding values reproduces it. -/
theorem decodeEntries_canonical (es : List (PyVal × PyVal)) :
    ∀ acc : List (PyVal × PyVal),
      (∀ kv ∈ es, ∃ s : String, kv.1 = .vstr s) →
      (∀ kv ∈ es, decode_object kv.2 = .ok kv.2) →
      (es.map Prod.fst).Nodup →
      (∀ kv ∈ acc, ∀ kv2 ∈ es, keyEq kv.1 kv2.1 = false) →
      decodeEntries es acc = .ok (acc ++ es) := by
  induction es with
  | nil => intro acc _ _ _ _; simp [decodeEntries]
  | cons kv rest ih =>
    obtain ⟨k, v⟩ := kv
    intro acc hkeys hvals hnodup hdisj
    obtain ⟨s, hs⟩ := hkeys (k, v) (List.mem_cons_self _ _)
    simp only at hs
    subst hs
    rw [decodeEntries]
    have hdk : decode_object (PyVal.vstr s) = .ok (.vstr s) := rfl
    have hdv : decode_object v = .ok v :=
      hvals (PyVal.vstr s, v) (List.mem_cons_self _ _)
    have hset : pyDictSet acc (.vstr s) v = .ok (acc ++ [(.vstr s, v)]) := by
      rw [pyDictSet]
      simp only [hashableKey, if_true]
      rw [dsetPy_eq_append acc (.vstr s) v
        (fun kv2 hkv2 => hdisj kv2 hkv2 (.vstr s, v) (List.mem_cons_self _ _))]
    rw [hdk]
    dsimp only
    rw [hdv]
    dsimp only
    rw [hset]
    dsimp only
    rw [ih (acc ++ [(PyVal.vstr s, v)])
      (fun kv2 hkv2 => hkeys kv2 (List.mem_cons_of_mem _ hkv2))
      (fun kv2 hkv2 => hvals kv2 (List.mem_cons_of_mem _ hkv2))
      (by
        simp only [List.map_cons, List.nodup_cons] at hnodup
        exact hnodup.2)
      ?_]
    · simp
    · intro kv2 hkv2 kv3 hkv3
      rcases List.mem_append.mp hkv2 with h1 | h1
      · exact hdisj kv2 h1 kv3 (List.mem_cons_of_mem _ hkv3)
      · simp only [List.mem_singleton] at h1
        subst h1
        obtain ⟨t, ht⟩ := hkeys kv3 (List.mem_cons_of_mem _ hkv3)
        rw [ht]
        simp only [keyEq_vstr, beq_eq_false_iff_ne, ne_eq]
        intro hst
        subst hst
        have hmem : PyVal.vstr s ∈ rest.map Prod.fst := by
          rw [← ht]
          exact List.mem_map_of_mem Prod.fst hkv3
        simp only [List.map_cons, List.nodup_cons] at hnodup
        exact hnodup.1 hmem

/-- `decode_object` is the identity on canonical values. -/
theorem decode_object_canon {v : PyVal} (h : Canon v) :
    decode_object v = .ok v := by
  induction h with
  | vnone => rfl
  | vbool b => rfl
  | vint n => rfl
  | vfloat q => rfl
  | vstr s => rfl
  | vlist xs hmem ih =>
    rw [decode_object, decodeList_id xs ih]
  | vdict es hkeys hvals hnodup ih =>
    rw [decode_object]
    rw [decodeEntries_canonical es [] hkeys ih hnodup (by simp)]
    simp

/-- Element-wise array round-trip is the identity when each element
round-trips to itself. -/
theorem jsonRoundList_id (xs : List PyVal)
    (h : ∀ x ∈ xs, jsonRound x = .ok x) : jsonRoundList xs = .ok xs := by
  induction xs with
  | nil => rfl
  | cons x rest ih =>
    rw [jsonRoundList, h x (List.mem_cons_self _ _),
      ih (fun y hy => h y (List.mem_cons_of_mem _ hy))]

/-- Entry round-trip of a string-keyed dict with self-round-tripping
values strips the `vstr` constructor off the keys. -/
theorem jsonRoundEntries_canonical (es : List (PyVal × PyVal))
    (hkeys : ∀ kv ∈ es, ∃ s : String, kv.1 = .vstr s)
    (hvals : ∀ kv ∈ es, jsonRound kv.2 = .ok kv.2) :
    ∃ pairs : List (String × PyVal),
      jsonRoundEntries es = .ok pairs ∧
      pairs.map (fun kv => ((.vstr kv.1, kv.2) : PyVal × PyVal)) = es := by
  induction es with
  | nil => exact ⟨[], rfl, rfl⟩
  | cons kv rest ih =>
    obtain ⟨k, v⟩ := kv
    obtain ⟨s, hs⟩ := hkeys (k, v) (List.mem_cons_self _ _)
    simp only at hs
    subst hs
    obtain ⟨pairs, hp1, hp2⟩ := ih
      (fun kv2 hkv2 => hkeys kv2 (List.mem_cons_of_mem _ hkv2))
      (fun kv2 hkv2 => hvals kv2 (List.mem_cons_of_mem _ hkv2))
    refine ⟨(s, v) :: pairs, ?_, ?_⟩
    · rw [jsonRoundEntries]
      have hks : jsonKeyString (PyVal.vstr s) = .ok s := rfl
      rw [hks, hvals (PyVal.vstr s, v) (List.mem_cons_self _ _), hp1]
    · simp only [List.map_cons, hp2]

/-- `jsonRound` is the identity on canonical values. -/
theorem jsonRound_canon {v : PyVal} (h : Canon v) :
    jsonRound v = .ok v := by
  induction h with
  | vnone => rfl
  | vbool b => rfl
  | vint n => rfl
  | vfloat q => rfl
  | vstr s => rfl
  | vlist xs hmem ih =>
    rw [jsonRound, jsonRoundList_id xs ih]
  | vdict es hkeys hvals hnodup ih =>
    obtain ⟨pairs, hp1, hp2⟩ := jsonRoundEntries_canonical es hkeys ih
    rw [jsonRound, hp1]
    dsimp only
    have hkeysmap : es.map Prod.fst = (pairs.map Prod.fst).map PyVal.vstr := by
      rw [← hp2]
      simp [List.map_map]
    have hpnodup : (pairs.map Prod.fst).Nodup := by
      rw [hkeysmap] at hnodup
      exact List.Nodup.of_map _ hnodup
    rw [foldl_jset_eq_append pairs [] hpnodup (by simp)]
    simp only [List.nil_append, hp2]

end WasmHelper

namespace WasmHelper

/-- Invariant of the `jd` accumulator: string keys other than
`'__builtins__'`, canonical values, distinct keys. -/
def JdInv (jd : List (PyVal × PyVal)) : Prop :=
  (∀ kv ∈ jd, ∃ s : String, kv.1 = .vstr s ∧ s ≠ "__builtins__") ∧
  (∀ kv ∈ jd, Canon kv.2) ∧
  (jd.map Prod.fst).Nodup

/-- Assigning a canonical value under a fresh-or-existing string key
other than `'__builtins__'` preserves the invariant. -/
theorem jdInv_dsetPy (jd : List (PyVal × PyVal)) (s : String) (v2 : PyVal)
    (hinv : JdInv jd) (hs : s ≠ "__builtins__") (hv : Canon v2) :
    JdInv (dsetPy jd (.vstr s) v2) := by
  obtain ⟨hkeys, hvals, hnodup⟩ := hinv
  refine ⟨?_, ?_, ?_⟩
  · intro kv hkv
    rcases mem_dsetPy _ _ _ _ hkv with h1 | ⟨kv2, hkv2, h2, _⟩ | h1
    · exact hkeys kv h1
    · obtain ⟨t, ht, htb⟩ := hkeys kv2 hkv2
      exact ⟨t, by rw [h2, ht], htb⟩
    · exact ⟨s, by rw [h1], hs⟩
  · intro kv hkv
    rcases mem_dsetPy _ _ _ _ hkv with h1 | ⟨kv2, hkv2, _, h2⟩ | h1
    · exact hvals kv h1
    · rw [h2]
      exact hv
    · rw [h1]
      exact hv
  · rcases dsetPy_keys jd (.vstr s) v2 with h | ⟨h1, h2⟩
    · rw [h]
      exact hnodup
    · rw [h1, List.nodup_append]
      refine ⟨hnodup, List.nodup_singleton _, ?_⟩
      intro a ha hb
      simp only [List.mem_singleton] at hb
      subst hb
      rcases List.mem_map.mp ha with ⟨kv2, hkv2, hfst⟩
      have hfalse := h2 kv2 hkv2
      obtain ⟨t, ht, _⟩ := hkeys kv2 hkv2
      rw [ht] at hfst hfalse
      rw [keyEq_vstr] at hfalse
      have hts : t ≠ s := by simpa using hfalse
      exact hts (by simpa using hfst)

/-- The `try` block on a string key: the key round-trips unchanged and
the value, when no exception is raised, comes out canonical. -/
theorem tryEntry_vstr (s : String) (v k2 v2 : PyVal)
    (h : tryEntry (.vstr s) v = .ok (k2, v2)) :
    k2 = .vstr s ∧ Canon v2 := by
  rw [tryEntry] at h
  cases hdv : decode_object v with
  | error e =>
    rw [hdv] at h
    exact Except.noConfusion h
  | ok dv =>
    rw [hdv] at h
    dsimp only at h
    cases hrv : jsonRound dv with
    | error e =>
      rw [hrv] at h
      exact Except.noConfusion h
    | ok w =>
      rw [hrv] at h
      dsimp only at h
      have hdk : decode_object (PyVal.vstr s) = .ok (.vstr s) := rfl
      rw [hdk] at h
      dsimp only at h
      have hrk : jsonRound (PyVal.vstr s) = .ok (.vstr s) := rfl
      rw [hrk] at h
      dsimp only at h
      simp only [Except.ok.injEq, Prod.mk.injEq] at h
      exact ⟨h.1.symm, h.2 ▸ canon_jsonRound dv w hrv⟩

/-- Building `jd` from a dict with string keys never raises and yields
an invariant-satisfying dict. -/
theorem buildJd_ok (d : List (PyVal × PyVal))
    (hkeys : ∀ kv ∈ d, ∃ s : String, kv.1 = .vstr s) :
    ∀ jd, JdInv jd → ∃ res, buildJd d jd = .ok res ∧ JdInv res := by
  induction d with
  | nil => exact fun jd hinv => ⟨jd, rfl, hinv⟩
  | cons kv rest ih =>
    obtain ⟨k, v⟩ := kv
    intro jd hinv
    obtain ⟨s, hs⟩ := hkeys (k, v) (List.mem_cons_self _ _)
    simp only at hs
    subst hs
    have hrest : ∀ kv ∈ rest, ∃ s, kv.1 = PyVal.vstr s :=
      fun kv2 hkv2 => hkeys kv2 (List.mem_cons_of_mem _ hkv2)
    rw [buildJd]
    by_cases hok : ok_type v = false
    · rw [if_pos hok]
      exact ih hrest jd hinv
    · rw [if_neg hok]
      by_cases hb : pyEqStr (PyVal.vstr s) "__builtins__" = true
      · rw [if_pos hb]
        exact ih hrest jd hinv
      · rw [if_neg hb]
        have hsb : s ≠ "__builtins__" := by
          simpa [pyEqStr] using hb
        cases ht : tryEntry (PyVal.vstr s) v with
        | error e =>
          dsimp only
          exact ih hrest jd hinv
        | ok kv2 =>
          obtain ⟨k2, v2⟩ := kv2
          dsimp only
          obtain ⟨hk2, hv2⟩ := tryEntry_vstr s v k2 v2 ht
          subst hk2
          have hset : pyDictSet jd (.vstr s) v2 =
              .ok (dsetPy jd (.vstr s) v2) := rfl
          rw [hset]
          dsimp only
          exact ih hrest _ (jdInv_dsetPy jd s v2 hinv hsb hv2)

/-- Rebuilding an invariant-satisfying dict reproduces it. -/
theorem buildJd_canonical (es : List (PyVal × PyVal)) :
    JdInv es →
    ∀ acc : List (PyVal × PyVal),
      (∀ kv ∈ acc, ∀ kv2 ∈ es, keyEq kv.1 kv2.1 = false) →
      buildJd es acc = .ok (acc ++ es) := by
  induction es with
  | nil => intro _ acc _; simp [buildJd]
  | cons kv rest ih =>
    obtain ⟨k, v⟩ := kv
    intro hinv acc hdisj
    obtain ⟨hkeys, hvals, hnodup⟩ := hinv
    obtain ⟨s, hs, hsb⟩ := hkeys (k, v) (List.mem_cons_self _ _)
    simp only at hs
    subst hs
    have hv : Canon v := hvals (PyVal.vstr s, v) (List.mem_cons_self _ _)
    rw [buildJd]
    rw [if_neg (by rw [hv.ok_type_eq]; simp)]
    rw [if_neg (by simp [pyEqStr, hsb])]
    have htry : tryEntry (PyVal.vstr s) v = .ok (.vstr s, v) := by
      rw [tryEntry, decode_object_canon hv]
      dsimp only
      rw [jsonRound_canon hv]
      dsimp only
      rfl
    rw [htry]
    have hset : pyDictSet acc (.vstr s) v = .ok (acc ++ [(.vstr s, v)]) := by
      rw [pyDictSet]
      simp only [hashableKey, if_true]
      rw [dsetPy_eq_append acc (.vstr s) v
        (fun kv2 hkv2 => hdisj kv2 hkv2 (.vstr s, v) (List.mem_cons_self _ _))]
    dsimp only
    rw [hset]
    dsimp only
    have hrestinv : JdInv rest := by
      refine ⟨fun kv2 hkv2 => hkeys kv2 (List.mem_cons_of_mem _ hkv2),
        fun kv2 hkv2 => hvals kv2 (List.mem_cons_of_mem _ hkv2), ?_⟩
      simp only [List.map_cons, List.nodup_cons] at hnodup
      exact hnodup.2
    rw [ih hrestinv (acc ++ [(PyVal.vstr s, v)]) ?_]
    · simp
    · intro kv2 hkv2 kv3 hkv3
      rcases List.mem_append.mp hkv2 with h1 | h1
      · exact hdisj kv2 h1 kv3 (List.mem_cons_of_mem _ hkv3)
      · simp only [List.mem_singleton] at h1
        subst h1
        obtain ⟨t, ht, _⟩ := hkeys kv3 (List.mem_cons_of_mem _ hkv3)
        rw [ht]
        simp only [keyEq_vstr, beq_eq_false_iff_ne, ne_eq]
        intro hst
        subst hst
        have hmem : PyVal.vstr s ∈ rest.map Prod.fst := by
          rw [← ht]
          exact List.mem_map_of_mem Prod.fst hkv3
        simp only [List.map_cons, List.nodup_cons] at hnodup
        exact hnodup.1 hmem

end WasmHelper

/-- C9 counterexample: the bytes key `b'__builtins__'` is not caught by
the `bad_keys` filter (it is not `==` to the string) but decodes to the
string `'__builtins__'`, so the result carries the forbidden top-level
key — and a second application then drops it, refuting idempotence. -/
theorem C9_counterexample_bytes_builtins_key :
    WasmHelper.json_safe
        [(.vbytes [95, 95, 98, 117, 105, 108, 116, 105, 110, 115, 95, 95],
          .vint 1)] =
      .ok [(.vstr "__builtins__", .vint 1)] ∧
    WasmHelper.json_safe [(.vstr "__builtins__", .vint 1)] = .ok [] := by
  constructor
  · rfl
  · rfl

/-- C9 (amended): for every dict whose keys are all strings, `json_safe`
raises no exception and produces a dict that JSON-round-trips unchanged,
carries no top-level key `'__builtins__'`, has only allowed-type
top-level values, and is a fixed point of `json_safe`. -/
theorem C9_json_safe_string_keys (d : List (WasmHelper.PyVal × WasmHelper.PyVal))
    (hkeys : ∀ kv ∈ d, ∃ s : String, kv.1 = WasmHelper.PyVal.vstr s) :
    ∃ res, WasmHelper.json_safe d = .ok res ∧
      WasmHelper.jsonRound (.vdict res) = .ok (.vdict res) ∧
      (∀ kv ∈ res, kv.1 ≠ WasmHelper.PyVal.vstr "__builtins__") ∧
      (∀ kv ∈ res, WasmHelper.ok_type kv.2 = true) ∧
      WasmHelper.json_safe res = .ok res := by
  obtain ⟨jd, hjd, hinv⟩ := WasmHelper.buildJd_ok d hkeys []
    ⟨by simp, by simp, by simp⟩
  have hcanon : WasmHelper.Canon (.vdict jd) :=
    WasmHelper.Canon.vdict jd
      (fun kv hkv => ((hinv.1 kv hkv).imp (fun s hs => hs.1)))
      (fun kv hkv => hinv.2.1 kv hkv)
      hinv.2.2
  have hround : WasmHelper.jsonRound (.vdict jd) = .ok (.vdict jd) :=
    WasmHelper.jsonRound_canon hcanon
  refine ⟨jd, ?_, hround, ?_, ?_, ?_⟩
  · rw [WasmHelper.json_safe, hjd]
    dsimp only
    rw [hround]
  · intro kv hkv
    obtain ⟨s, hs, hsb⟩ := hinv.1 kv hkv
    rw [hs]
    simp [hsb]
  · intro kv hkv
    exact (hinv.2.1 kv hkv).ok_type_eq
  · have hbuild : WasmHelper.buildJd jd [] = .ok jd := by
      have := WasmHelper.buildJd_canonical jd hinv [] (by simp)
      simpa using this
    rw [WasmHelper.json_safe, hbuild]
    dsimp only
    rw [hround]

/-- C9 witness: a concrete string-keyed dict. -/
theorem C9_json_safe_string_keys_witness :
    ∃ res,
      WasmHelper.json_safe [(WasmHelper.PyVal.vstr "a", WasmHelper.PyVal.vint 1)] =
        .ok res ∧
      WasmHelper.jsonRound (.vdict res) = .ok (.vdict res) ∧
      (∀ kv ∈ res, kv.1 ≠ WasmHelper.PyVal.vstr "__builtins__") ∧
      (∀ kv ∈ res, WasmHelper.ok_type kv.2 = true) ∧
      WasmHelper.json_safe res = .ok res :=
  C9_json_safe_string_keys
    [(WasmHelper.PyVal.vstr "a", WasmHelper.PyVal.vint 1)]
    (fun kv hkv => by
      simp only [List.mem_singleton] at hkv
      exact ⟨"a", by rw [hkv]⟩)
